import Mathlib

/-!
Verification of the modctl catalog/deployment core against its
natural-language specification.

The Go sources are shallowly embedded: pure functions become Lean
functions, the SQLite schema (CHECK constraints, triggers, unique
indexes) becomes guarded operations on an explicit database record, and
the on-disk blob store becomes an association list from paths to byte
sequences.  Machine integers are modelled as Nat/Int with explicit
wrap-around where Go's int64 arithmetic can overflow.
-/

namespace Modctl

/-! ## Byte sequences and an on-disk filesystem model -/

/-- A byte sequence (contents of a file or a stream). -/
abbrev Bytes := List Nat

/-- The on-disk state: a finite map from absolute paths to file
contents, represented as an association list. -/
abbrev FS := List (String × Bytes)

/-- Look up the contents of a path. -/
def FS.lookup (fs : FS) (p : String) : Option Bytes :=
  (fs.find? (fun kv => kv.1 = p)).map (fun kv => kv.2)

/-- Write (create or overwrite) a file. -/
def FS.set (fs : FS) (p : String) (b : Bytes) : FS :=
  (p, b) :: fs.filter (fun kv => ¬ kv.1 = p)

/-- Remove a file (no-op when absent). -/
def FS.erase (fs : FS) (p : String) : FS :=
  fs.filter (fun kv => ¬ kv.1 = p)

/-! ## Blob store (Go package `blobstore`, file with `IngestFile`)

`Store` holds the three kind-partitioned roots plus the tmp root, as in
the Go struct.  `PathFor` mirrors the Go function: it rejects hashes
whose length is not 64 (modelled by `Option`) and otherwise returns
`<root>/<two-hex-fan>/<full-hex>`; `filepath.Join` on a clean root with
no trailing slash is string concatenation with `/`. -/

inductive Kind where
  | archive
  | backup
  | override
deriving DecidableEq

structure Store where
  ArchivesDir : String
  BackupsDir : String
  OverridesDir : String
  TmpDir : String
deriving DecidableEq

def Store.RootFor (s : Store) : Kind → String
  | .archive => s.ArchivesDir
  | .backup => s.BackupsDir
  | .override => s.OverridesDir

def Store.PathFor (s : Store) (kind : Kind) (shaHex : String) : Option String :=
  if shaHex.length = 64 then
    some (s.RootFor kind ++ "/" ++ (shaHex.take 2) ++ "/" ++ shaHex)
  else
    none

/-- The 1 MiB copy buffer of `IngestFile` (`make([]byte, 1024*1024)`). -/
def bufLen : Nat := 1024 * 1024

/-- Embedding of `copyWithContext`.  The Go loop checks the context
before every read; a read returns `min bufLen remaining` bytes and
`io.EOF` once the source is exhausted.  `done i` is whether the
cancellation signal is observed as fired at the i-th check; the result
is the total number of bytes written and whether the copy was cancelled
(`ctx.Err()`). -/
def copyWithContext (done : Nat → Bool) (i : Nat) (total : Nat) (src : Bytes) :
    Nat × Bool :=
  if done i then (total, true)
  else
    match src with
    | [] => (total, false)
    | x :: xs =>
      copyWithContext done (i + 1) (total + ((x :: xs).take bufLen).length)
        ((x :: xs).drop bufLen)
termination_by src.length
decreasing_by
  simp only [bufLen, List.length_drop, List.length_cons]
  omega

/-- The sizes of the successive reads `copyWithContext` performs on a
source (ignoring cancellation): each is `min bufLen remaining`. -/
def chunkSizes (src : Bytes) : List Nat :=
  match src with
  | [] => []
  | x :: xs =>
    ((x :: xs).take bufLen).length :: chunkSizes ((x :: xs).drop bufLen)
termination_by src.length
decreasing_by
  simp only [bufLen, List.length_drop, List.length_cons]
  omega

/-- Errors of the blob store (§4.1: `io-error`, `corruption`,
`cancelled`; an invalid hash length surfaces as the `PathFor` error). -/
inductive IngestErr where
  | cancelled
  | corruption (path : String)
  | badShaLength
deriving DecidableEq

structure IngestResult where
  SHA256Hex : String
  SizeBytes : Nat
  Existed : Bool
deriving DecidableEq

/-- Embedding of `Store.IngestFile`.

`H` is the SHA-256 hex digest function (the Go code uses
`crypto/sha256`; the digest itself is an external primitive, so it is a
parameter).  `tmpName` is the fresh temp file `os.CreateTemp` creates
under `tmp/incoming`.  The deferred `os.Remove(tmpName)` runs on every
path; `os.Rename` moves the temp contents to the final path.  The
single-process model has no rename race, so the race branch of the Go
code is dead here. -/
def Store.IngestFile (s : Store) (H : Bytes → String) (done : Nat → Bool)
    (tmpName : String) (fs : FS) (kind : Kind) (src : Bytes) :
    Except IngestErr IngestResult × FS :=
  let (n, cancelled) := copyWithContext done 0 0 src
  let fs1 := FS.set fs tmpName (src.take n)
  if cancelled then
    (Except.error IngestErr.cancelled, FS.erase fs1 tmpName)
  else
    let shaHex := H src
    match s.PathFor kind shaHex with
    | none => (Except.error IngestErr.badShaLength, FS.erase fs1 tmpName)
    | some finalPath =>
      match FS.lookup fs1 finalPath with
      | some existing =>
        if existing.length = n then
          (Except.ok ⟨shaHex, n, true⟩, FS.erase fs1 tmpName)
        else
          (Except.error (IngestErr.corruption finalPath), FS.erase fs1 tmpName)
      | none =>
        (Except.ok ⟨shaHex, n, false⟩,
          FS.set (FS.erase fs1 tmpName) finalPath (src.take n))

/-- `n` repeated ingests of the same byte sequence (the sequence of
§8.1), each with a never-fired cancellation signal. -/
def ingestRepeat (s : Store) (H : Bytes → String) (tmpName : String)
    (kind : Kind) (src : Bytes) : Nat → FS → FS
  | 0, fs => fs
  | n + 1, fs =>
    ingestRepeat s H tmpName kind src n
      (s.IngestFile H (fun _ => false) tmpName fs kind src).2

/-! ## Game-install selectors (Go package `internal`, selector file)

Go strings are modelled as lists of characters so that the string
functions (`strings.TrimSpace`, `strings.ToLower`, `strings.IndexByte`,
`strings.Split`) can be embedded structurally.  Case mapping is the
ASCII portion of Unicode simple lowering (selectors are ASCII); the
whitespace set is Go's `unicode.IsSpace`. -/

abbrev Str := List Char

/-- Go `unicode.IsSpace`: the White_Space code points plus the Latin-1
special cases (U+0085, U+00A0). -/
def goIsSpace (c : Char) : Bool :=
  (0x0009 ≤ c.toNat && c.toNat ≤ 0x000D) || c.toNat = 0x0020 ||
    c.toNat = 0x0085 || c.toNat = 0x00A0 || c.toNat = 0x1680 ||
    (0x2000 ≤ c.toNat && c.toNat ≤ 0x200A) || c.toNat = 0x2028 ||
    c.toNat = 0x2029 || c.toNat = 0x202F || c.toNat = 0x205F ||
    c.toNat = 0x3000

/-- ASCII case lowering (Go `unicode.ToLower` restricted to ASCII). -/
def goToLower (c : Char) : Char :=
  if 'A' ≤ c && c ≤ 'Z' then Char.ofNat (c.toNat + 32) else c

/-- Go `strings.TrimSpace`. -/
def trimSpace (s : Str) : Str :=
  ((s.dropWhile goIsSpace).reverse.dropWhile goIsSpace).reverse

/-- Go `strings.ToLower` (ASCII portion). -/
def toLowerStr (s : Str) : Str := s.map goToLower

/-- Go `strings.Split(s, String(c))` for a one-character separator. -/
def splitOnChar (c : Char) : Str → List Str
  | [] => [[]]
  | x :: xs =>
    if x = c then [] :: splitOnChar c xs
    else
      match splitOnChar c xs with
      | [] => [[x]]
      | h :: t => (x :: h) :: t

/-- The literal `"default"`. -/
def defaultInstance : Str := ['d', 'e', 'f', 'a', 'u', 'l', 't']

/-- Embedding of `FullSelector`: always includes the instance. -/
def FullSelector (storeID storeGameID instanceID : Str) : Str :=
  let st := toLowerStr (trimSpace storeID)
  let g := trimSpace storeGameID
  let i0 := trimSpace instanceID
  let i := if i0 = [] then defaultInstance else i0
  st ++ [':'] ++ g ++ ['#'] ++ i

/-- Embedding of `ShortSelector`: includes the instance only when it is
neither empty nor `"default"`. -/
def ShortSelector (storeID storeGameID instanceID : Str) : Str :=
  let st := toLowerStr (trimSpace storeID)
  let g := trimSpace storeGameID
  let i0 := trimSpace instanceID
  if i0 = [] || i0 = defaultInstance then st ++ [':'] ++ g
  else st ++ [':'] ++ g ++ ['#'] ++ i0

/-- Embedding of `ParseSelector`.  `strings.IndexByte(s, ':')`
becomes `findIdx?`; `colon <= 0` covers both the not-found (-1) and
position-0 cases of the Go code. -/
def ParseSelector (s0 : Str) : Except Unit (Str × Str × Str) :=
  let s := trimSpace s0
  if s = [] then Except.error ()
  else
    match s.findIdx? (fun c => c = ':') with
    | none => Except.error ()
    | some colon =>
      if colon = 0 || colon = s.length - 1 then Except.error ()
      else
        let storeID := toLowerStr (trimSpace (s.take colon))
        let rest := trimSpace (s.drop (colon + 1))
        if storeID = [] || rest = [] then Except.error ()
        else
          match splitOnChar '#' rest with
          | [g0] =>
            let g := trimSpace g0
            if g = [] then Except.error ()
            else Except.ok (storeID, g, defaultInstance)
          | [g0, i0] =>
            let g := trimSpace g0
            if g = [] then Except.error ()
            else
              let inst := trimSpace i0
              if inst = [] then Except.error ()
              else Except.ok (storeID, g, inst)
          | _ => Except.error ()

/-! ## Path containment (Go `internal/fsutil.go`, `IsUnderDir`)

Paths are decomposed into segments (split on `/`, empty segments
dropped).  `filepath.Clean` on an absolute path resolves `.` and `..`
segments with the root clamped, which is `cleanAbs` on the segment
list.  `filepath.Abs p` is `Clean(p)` for absolute `p` and
`Clean(Join(cwd, p))` otherwise, which is `absSegs`.  `filepath.Rel`
on two cleaned absolute paths strips the common segment lead and emits
one `..` per remaining base segment, which is `relSegs`; the Go
string-level tests `rel == "."`, `rel == ".."` and
`strings.HasPrefix(rel, "../")` correspond to the result list being
empty or starting with `".."` (no produced segment other than a
literal `".."` can make the string start with `"../"`). -/

/-- Unix `filepath.IsAbs`: the path begins with a slash. -/
def goIsAbs (s : String) : Bool :=
  match s.data with
  | c :: _ => c = '/'
  | [] => false

/-- Split a path into its non-empty segments (splitting on every
`/` and dropping the empty pieces). -/
def splitSegs (s : String) : List String :=
  ((splitOnChar '/' s.data).map (fun cs => String.mk cs)).filter
    (fun x => ¬ x = "")

/-- Resolve `.` and `..` over an absolute path's segments; `acc` holds
the already-resolved segments in reverse. -/
def cleanAbsAux : List String → List String → List String
  | acc, [] => acc.reverse
  | acc, seg :: rest =>
    if seg = "." then cleanAbsAux acc rest
    else if seg = ".." then cleanAbsAux (acc.drop 1) rest
    else cleanAbsAux (seg :: acc) rest

/-- `filepath.Clean` of an absolute path, on segments. -/
def cleanAbs (l : List String) : List String := cleanAbsAux [] l

/-- `filepath.Abs` relative to working directory `cwd` (absolute, as
`os.Getwd` returns), on segments. -/
def absSegs (cwd p : String) : List String :=
  if goIsAbs p then cleanAbs (splitSegs p)
  else cleanAbs (splitSegs cwd ++ splitSegs p)

/-- Strip the common leading segments of two paths. -/
def dropCommon : List String → List String → List String × List String
  | a :: ra, b :: rb =>
    if a = b then dropCommon ra rb else (a :: ra, b :: rb)
  | ra, rb => (ra, rb)

/-- `filepath.Rel base targ` for cleaned absolute inputs, on
segments. -/
def relSegs (base targ : List String) : List String :=
  let p := dropCommon base targ
  List.replicate p.1.length ".." ++ p.2

/-- Embedding of `IsUnderDir`: absolutize both, take the relative path
from dir to path, and report "outside" exactly when it starts with
`..`. -/
def IsUnderDir (cwd path dir : String) : Bool :=
  let ap := absSegs cwd path
  let ad := absSegs cwd dir
  match relSegs ad ap with
  | [] => true
  | s :: _ => ¬ s = ".."

/-! ## Metadata store

Rows carry the columns that the schema's CHECK constraints, triggers
and unique indexes touch.  Timestamps are abstract ticks (`Nat`). -/

/-- The `origin` column of the `targets` migration: `origin TEXT NOT
NULL DEFAULT 'discovered' CHECK (origin IN ('discovered',
'user_override'))`.  The same migration declares `UNIQUE
(game_install_id, name)`, the key the discovered-target upsert
conflicts on. -/
inductive Origin where
  | discovered
  | user_override
deriving DecidableEq

structure TargetRow where
  id : Nat
  gameInstallId : Nat
  name : String
  rootPath : String
  origin : Origin
  metadata : Option String
  createdAt : Nat
  updatedAt : Nat
deriving DecidableEq

structure BlobRow where
  sha256 : String
  kind : String
  sizeBytes : Nat
  originalName : Option String
  verifiedAt : Option Nat
deriving DecidableEq

structure InstalledFileRow where
  id : Nat
  gameInstallId : Nat
  targetId : Nat
  relpath : String
  contentSha256 : String
  sizeBytes : Nat
  ownerModFileVersionId : Option Nat
  ownerOverrideId : Option Nat
deriving DecidableEq

structure BackupRow where
  id : Nat
  gameInstallId : Nat
  targetId : Nat
  relpath : String
  backupBlobSha256 : String
  originalContentSha256 : Option String
  sizeBytes : Nat
deriving DecidableEq

structure OpChangeRow where
  id : Nat
  operationId : Nat
  gameInstallId : Nat
  targetId : Nat
  relpath : String
  action : String
  backupBlobSha256 : Option String
deriving DecidableEq

structure ModPageRow where
  id : Nat
  gameInstallId : Nat
  name : String
  sourceKind : String
  sourceUrl : Option String
  nexusGameDomain : Option String
  nexusModId : Option Int
deriving DecidableEq

structure ModFileRow where
  id : Nat
  modPageId : Nat
  label : String
  isPrimary : Bool
deriving DecidableEq

structure ModFileVersionRow where
  id : Nat
  modFileId : Nat
  archiveSha256 : String
  originalName : Option String
  wrapped : Option (String × String)
deriving DecidableEq

structure ProfileRow where
  id : Nat
  gameInstallId : Nat
  name : String
  isActive : Bool
deriving DecidableEq

structure ProfileItemRow where
  id : Nat
  profileId : Nat
  modFileVersionId : Nat
  enabled : Bool
  priority : Int
deriving DecidableEq

structure OverrideRow where
  id : Nat
  profileId : Nat
  targetId : Nat
  relpath : String
  blobSha256 : String
deriving DecidableEq

structure Db where
  targets : List TargetRow
  blobs : List BlobRow
  installedFiles : List InstalledFileRow
  backups : List BackupRow
  opChanges : List OpChangeRow
  modPages : List ModPageRow
  modFiles : List ModFileRow
  modFileVersions : List ModFileVersionRow
  profiles : List ProfileRow
  profileItems : List ProfileItemRow
  overrides : List OverrideRow
deriving DecidableEq

def emptyDb : Db := ⟨[], [], [], [], [], [], [], [], [], [], []⟩

/-- `INTEGER PRIMARY KEY` id assignment (max existing id + 1). -/
def freshId (ids : List Nat) : Nat := ids.foldr max 0 + 1

/-- Errors surfaced at the database boundary. -/
inductive DbErr where
  | checkFailed
  | abort (msg : String)
  | uniqueViolation
  | noRows
  | invariant (msg : String)
deriving DecidableEq

/-- The `CHECK` on `blobs.sha256`: length 64, and the `GLOB
'[0-9a-f]*'` pattern, which constrains only the first character. -/
def shaCheck (s : String) : Bool :=
  s.length = 64 &&
    (match s.data with
     | c :: _ => ('0' ≤ c && c ≤ '9') || ('a' ≤ c && c ≤ 'f')
     | [] => false)

def kindCheck (k : String) : Bool :=
  k = "archive" || k = "backup" || k = "override"

def actionCheck (a : String) : Bool :=
  a = "write" || a = "overwrite" || a = "remove" || a = "restore_backup" ||
    a = "noop"

/-- The subquery of the `trg_*_target_matches_install_*` triggers:
does a `targets` row with this id exist under this game install? -/
def targetBelongs (db : Db) (targetId gameInstallId : Nat) : Bool :=
  db.targets.any (fun t => t.id = targetId && t.gameInstallId = gameInstallId)

/-- The subquery of the blob-kind triggers: the referenced blob exists
and has the required kind. -/
def blobHasKind (db : Db) (sha kind : String) : Bool :=
  db.blobs.any (fun b => b.sha256 = sha && b.kind = kind)

/-- `SELECT * FROM blobs WHERE sha256 = ?` (`GetBlob`). -/
def GetBlob (db : Db) (sha : String) : Option BlobRow :=
  db.blobs.find? (fun b => b.sha256 = sha)

/-- `InsertBlob` guarded by the `blobs` table's PRIMARY KEY and CHECK
constraints. -/
def InsertBlob (db : Db) (r : BlobRow) : Except DbErr Db :=
  if ¬ (shaCheck r.sha256 && kindCheck r.kind) then Except.error DbErr.checkFailed
  else if (GetBlob db r.sha256).isSome then Except.error DbErr.uniqueViolation
  else Except.ok { db with blobs := db.blobs ++ [r] }

/-- Embedding of `blobstore.EnsureBlobRecorded`: an existing row must
match in kind and size and is never touched; otherwise the blob row is
inserted with `verified_at` set to now. -/
def EnsureBlobRecorded (db : Db) (sha kind : String) (sizeBytes : Nat)
    (originalName : Option String) (now : Nat) : Except DbErr Db :=
  match GetBlob db sha with
  | some existing =>
    if ¬ existing.kind = kind then
      Except.error (DbErr.invariant "blob exists with different kind")
    else if ¬ existing.sizeBytes = sizeBytes then
      Except.error (DbErr.invariant "blob exists with different size_bytes")
    else Except.ok db
  | none =>
    InsertBlob db
      ⟨sha, kind, sizeBytes,
        (match originalName with
         | some s => if s = "" then none else some s
         | none => none),
        some now⟩

/-- `CHECK` of `installed_files`: exactly one owner column is set
(plus the relpath/sha shape checks of the same table). -/
def installedFileCheck (r : InstalledFileRow) : Bool :=
  (¬ r.relpath = "") && shaCheck r.contentSha256 &&
    ((r.ownerModFileVersionId.isSome && r.ownerOverrideId.isNone) ||
      (r.ownerModFileVersionId.isNone && r.ownerOverrideId.isSome))

/-- INSERT into `installed_files`: table CHECKs, the
`trg_installed_files_target_matches_install_ins` trigger, and the
`UNIQUE(game_install_id, target_id, relpath)` index. -/
def insertInstalledFile (db : Db) (r : InstalledFileRow) : Except DbErr Db :=
  if ¬ installedFileCheck r then Except.error DbErr.checkFailed
  else if ¬ targetBelongs db r.targetId r.gameInstallId then
    Except.error (DbErr.abort "installed_files: target_id does not belong to game_install_id")
  else if db.installedFiles.any (fun x =>
      x.gameInstallId = r.gameInstallId && x.targetId = r.targetId &&
        x.relpath = r.relpath) then
    Except.error DbErr.uniqueViolation
  else Except.ok { db with installedFiles := db.installedFiles ++ [r] }

/-- UPDATE of an `installed_files` row (identified by id) to `r`.  The
`BEFORE UPDATE OF target_id, game_install_id` trigger is modelled as
firing when one of those columns changes; when they are unchanged its
subquery gives the same verdict on a consistent row, so this is
observationally equivalent at the boundary. -/
def updateInstalledFile (db : Db) (rid : Nat) (r : InstalledFileRow) :
    Except DbErr Db :=
  match db.installedFiles.find? (fun x => x.id = rid) with
  | none => Except.error DbErr.noRows
  | some old =>
    if ¬ r.id = rid then Except.error DbErr.checkFailed
    else if ¬ installedFileCheck r then Except.error DbErr.checkFailed
    else if (¬ (r.targetId = old.targetId && r.gameInstallId = old.gameInstallId))
        && ¬ targetBelongs db r.targetId r.gameInstallId then
      Except.error (DbErr.abort "installed_files: target_id does not belong to game_install_id")
    else
      let upd := db.installedFiles.map (fun x => if x.id = rid then r else x)
      Except.ok { db with installedFiles := upd }

/-- INSERT into `backups`: CHECKs, the backup-blob-kind trigger, the
target-matches-install trigger, and `UNIQUE(game_install_id,
target_id, relpath)`. -/
def insertBackup (db : Db) (r : BackupRow) : Except DbErr Db :=
  if ¬ (¬ r.backupBlobSha256 = "" && ¬ r.relpath = "") then
    Except.error DbErr.checkFailed
  else if ¬ blobHasKind db r.backupBlobSha256 "backup" then
    Except.error (DbErr.abort "backup_blob_sha256 must reference a blob with kind=backup")
  else if ¬ targetBelongs db r.targetId r.gameInstallId then
    Except.error (DbErr.abort "backups: target_id does not belong to game_install_id")
  else if db.backups.any (fun x =>
      x.gameInstallId = r.gameInstallId && x.targetId = r.targetId &&
        x.relpath = r.relpath) then
    Except.error DbErr.uniqueViolation
  else Except.ok { db with backups := db.backups ++ [r] }

/-- UPDATE of a `backups` row, with the two `BEFORE UPDATE OF`
triggers modelled as for `updateInstalledFile`. -/
def updateBackup (db : Db) (rid : Nat) (r : BackupRow) : Except DbErr Db :=
  match db.backups.find? (fun x => x.id = rid) with
  | none => Except.error DbErr.noRows
  | some old =>
    if ¬ r.id = rid then Except.error DbErr.checkFailed
    else if (¬ r.backupBlobSha256 = old.backupBlobSha256)
        && ¬ blobHasKind db r.backupBlobSha256 "backup" then
      Except.error (DbErr.abort "backup_blob_sha256 must reference a blob with kind=backup")
    else if (¬ (r.targetId = old.targetId && r.gameInstallId = old.gameInstallId))
        && ¬ targetBelongs db r.targetId r.gameInstallId then
      Except.error (DbErr.abort "backups: target_id does not belong to game_install_id")
    else
      let upd := db.backups.map (fun x => if x.id = rid then r else x)
      Except.ok { db with backups := upd }

/-- The `WHEN NEW.backup_blob_sha256 IS NOT NULL` blob-kind trigger
condition of `operation_changes`: true when the trigger would abort. -/
def optBackupKindBad (db : Db) (o : Option String) : Bool :=
  match o with
  | some sha => ¬ blobHasKind db sha "backup"
  | none => false

/-- INSERT into `operation_changes`: action CHECK, the
target-matches-install trigger, and the (conditional) backup-blob-kind
trigger. -/
def insertOpChange (db : Db) (r : OpChangeRow) : Except DbErr Db :=
  if ¬ (actionCheck r.action && ¬ r.relpath = "") then
    Except.error DbErr.checkFailed
  else if ¬ targetBelongs db r.targetId r.gameInstallId then
    Except.error (DbErr.abort "operation_changes: target_id does not belong to game_install_id")
  else if optBackupKindBad db r.backupBlobSha256 then
    Except.error (DbErr.abort "backup_blob_sha256 must reference a blob with kind=backup")
  else Except.ok { db with opChanges := db.opChanges ++ [r] }

/-- UPDATE of an `operation_changes` row (the journal is append-only
in normal operation, but the trigger still guards the boundary). -/
def updateOpChange (db : Db) (rid : Nat) (r : OpChangeRow) : Except DbErr Db :=
  match db.opChanges.find? (fun x => x.id = rid) with
  | none => Except.error DbErr.noRows
  | some old =>
    if ¬ r.id = rid then Except.error DbErr.checkFailed
    else if ¬ actionCheck r.action then Except.error DbErr.checkFailed
    else if (¬ (r.targetId = old.targetId && r.gameInstallId = old.gameInstallId))
        && ¬ targetBelongs db r.targetId r.gameInstallId then
      Except.error (DbErr.abort "operation_changes: target_id does not belong to game_install_id")
    else if (¬ r.backupBlobSha256 = old.backupBlobSha256)
        && optBackupKindBad db r.backupBlobSha256 then
      Except.error (DbErr.abort "backup_blob_sha256 must reference a blob with kind=backup")
    else
      let upd := db.opChanges.map (fun x => if x.id = rid then r else x)
      Except.ok { db with opChanges := upd }

/-- INSERT into `mod_file_versions`: the archive-blob-kind trigger,
the foreign key on `mod_file_id`, and
`UNIQUE(mod_file_id, archive_sha256)`. -/
def insertModFileVersion (db : Db) (r : ModFileVersionRow) : Except DbErr Db :=
  if ¬ db.modFiles.any (fun f => f.id = r.modFileId) then
    Except.error DbErr.checkFailed
  else if ¬ blobHasKind db r.archiveSha256 "archive" then
    Except.error (DbErr.abort "archive_sha256 must reference a blob with kind=archive")
  else if db.modFileVersions.any (fun x =>
      x.modFileId = r.modFileId && x.archiveSha256 = r.archiveSha256) then
    Except.error DbErr.uniqueViolation
  else Except.ok { db with modFileVersions := db.modFileVersions ++ [r] }

/-- INSERT into `overrides`: the override-blob-kind trigger and the
profile/target same-install trigger. -/
def insertOverride (db : Db) (r : OverrideRow) : Except DbErr Db :=
  if ¬ (¬ r.relpath = "") then Except.error DbErr.checkFailed
  else if ¬ blobHasKind db r.blobSha256 "override" then
    Except.error (DbErr.abort "override blob_sha256 must reference a blob with kind=override")
  else if ¬ (db.profiles.any (fun p => p.id = r.profileId &&
      db.targets.any (fun t => t.id = r.targetId &&
        t.gameInstallId = p.gameInstallId))) then
    Except.error (DbErr.abort "overrides: target_id does not belong to the same game_install as profile_id")
  else if db.overrides.any (fun x =>
      x.profileId = r.profileId && x.targetId = r.targetId &&
        x.relpath = r.relpath) then
    Except.error DbErr.uniqueViolation
  else Except.ok { db with overrides := db.overrides ++ [r] }

/-- DELETE of a `targets` row: the `ON DELETE CASCADE` foreign keys of
`installed_files`, `backups` and `operation_changes` remove the child
rows referencing it. -/
def deleteTargetCascade (db : Db) (tid : Nat) : Db :=
  { db with
    targets := db.targets.filter (fun t => ¬ t.id = tid)
    installedFiles := db.installedFiles.filter (fun r => ¬ r.targetId = tid)
    backups := db.backups.filter (fun r => ¬ r.targetId = tid)
    opChanges := db.opChanges.filter (fun r => ¬ r.targetId = tid)
    overrides := db.overrides.filter (fun r => ¬ r.targetId = tid) }

/-- Database states reachable through the boundary operations of the
provided schema and queries: target creation and (cascading) deletion,
blob recording, and the guarded inserts/updates/deletes of the
target-referencing tables. -/
inductive Reach : Db → Prop where
  | init : Reach emptyDb
  | insTarget (db : Db) (t : TargetRow) : Reach db →
      Reach { db with targets := db.targets ++ [t] }
  | delTarget (db : Db) (tid : Nat) : Reach db →
      Reach (deleteTargetCascade db tid)
  | recordBlob (db db' : Db) (sha kind : String) (size : Nat)
      (orig : Option String) (now : Nat) : Reach db →
      EnsureBlobRecorded db sha kind size orig now = Except.ok db' → Reach db'
  | insInstalled (db db' : Db) (r : InstalledFileRow) : Reach db →
      insertInstalledFile db r = Except.ok db' → Reach db'
  | updInstalled (db db' : Db) (rid : Nat) (r : InstalledFileRow) : Reach db →
      updateInstalledFile db rid r = Except.ok db' → Reach db'
  | delInstalled (db : Db) (rid : Nat) : Reach db →
      Reach { db with installedFiles :=
        db.installedFiles.filter (fun x => ¬ x.id = rid) }
  | insBackup (db db' : Db) (r : BackupRow) : Reach db →
      insertBackup db r = Except.ok db' → Reach db'
  | updBackup (db db' : Db) (rid : Nat) (r : BackupRow) : Reach db →
      updateBackup db rid r = Except.ok db' → Reach db'
  | delBackup (db : Db) (rid : Nat) : Reach db →
      Reach { db with backups := db.backups.filter (fun x => ¬ x.id = rid) }
  | insOpChange (db db' : Db) (r : OpChangeRow) : Reach db →
      insertOpChange db r = Except.ok db' → Reach db'
  | updOpChange (db db' : Db) (rid : Nat) (r : OpChangeRow) : Reach db →
      updateOpChange db rid r = Except.ok db' → Reach db'
  | delOpChange (db : Db) (rid : Nat) : Reach db →
      Reach { db with opChanges := db.opChanges.filter (fun x => ¬ x.id = rid) }

/-- The two invariants of claim C2 (§3, cross-entity invariants 1 and
2): exactly one owner on every installed file, and every
target-referencing row points at a target of its own game install. -/
def DbInv (db : Db) : Prop :=
  (∀ r ∈ db.installedFiles,
      ((r.ownerModFileVersionId.isSome ∧ r.ownerOverrideId = none) ∨
        (r.ownerModFileVersionId = none ∧ r.ownerOverrideId.isSome)) ∧
      targetBelongs db r.targetId r.gameInstallId = true) ∧
  (∀ r ∈ db.backups, targetBelongs db r.targetId r.gameInstallId = true) ∧
  (∀ r ∈ db.opChanges, targetBelongs db r.targetId r.gameInstallId = true)

/-! ## Discovered-target upsert (Go `upsertGameDirTarget` and query
`UpsertDiscoveredTarget`) -/

/-- `GetTargetByName` (`SELECT ... WHERE game_install_id = ? AND name
= ? LIMIT 1`). -/
def GetTargetByName (db : Db) (gid : Nat) (nm : String) : Option TargetRow :=
  db.targets.find? (fun t => t.gameInstallId = gid && t.name = nm)

/-- `UpsertDiscoveredTarget`: INSERT with `origin='discovered'`, and
`ON CONFLICT (game_install_id, name) DO UPDATE` of root_path, origin,
metadata and updated_at. -/
def UpsertDiscoveredTarget (db : Db) (gid : Nat) (nm root : String)
    (meta : Option String) (now : Nat) : Db :=
  if db.targets.any (fun t => t.gameInstallId = gid && t.name = nm) then
    let upd := db.targets.map (fun t =>
      if t.gameInstallId = gid && t.name = nm then
        { t with rootPath := root, origin := Origin.discovered,
                 metadata := meta, updatedAt := now }
      else t)
    { db with targets := upd }
  else
    { db with targets := db.targets ++
        [⟨freshId (db.targets.map (fun t => t.id)), gid, nm, root,
          Origin.discovered, meta, now, now⟩] }

/-- Embedding of `upsertGameDirTarget`: create the `game_dir` target
when absent, leave it alone when the user overrode it, refresh it
otherwise. -/
def upsertGameDirTarget (db : Db) (gid : Nat) (installRoot : String)
    (now : Nat) : Db :=
  match GetTargetByName db gid "game_dir" with
  | none => UpsertDiscoveredTarget db gid "game_dir" installRoot none now
  | some t =>
    if t.origin = Origin.user_override then db
    else UpsertDiscoveredTarget db gid "game_dir" installRoot none now

/-! ## Adding a version to a profile (Go `profilesAddCmd`)

Priorities are SQLite INTEGERs, i.e. Go int64; `maxPrio + 1` is 64-bit
two's-complement addition, so it is modelled with an explicit
wrap-around. -/

def int64Min : Int := -(2 ^ 63)

def int64Max : Int := 2 ^ 63 - 1

/-- Two's-complement wrap-around of Go int64 arithmetic. -/
def wrap64 (z : Int) : Int := (z + 2 ^ 63) % 2 ^ 64 - 2 ^ 63

/-- `GetMaxPriorityForProfile`: `COALESCE(MAX(priority), 0)` over the
profile's items. -/
def GetMaxPriorityForProfile (db : Db) (pid : Nat) : Int :=
  match (db.profileItems.filter (fun it => it.profileId = pid)).map
      (fun it => it.priority) with
  | [] => 0
  | p :: ps => ps.foldl max p

/-- `IsPriorityTaken`: does some item of the profile already use this
priority? -/
def IsPriorityTaken (db : Db) (pid : Nat) (prio : Int) : Bool :=
  db.profileItems.any (fun it => it.profileId = pid && it.priority = prio)

/-- `ExistsModFileVersion`. -/
def ExistsModFileVersion (db : Db) (vid : Nat) : Bool :=
  db.modFileVersions.any (fun v => v.id = vid)

/-- `CreateProfileItem`: the INSERT into `profile_items`, guarded by
its foreign keys and by `UNIQUE(profile_id, mod_file_version_id)`.
The table has no unique constraint on `(profile_id, priority)`. -/
def CreateProfileItem (db : Db) (pid vid : Nat) (enabled : Bool)
    (priority : Int) : Except DbErr (Db × Nat) :=
  if ¬ db.profiles.any (fun p => p.id = pid) then Except.error DbErr.checkFailed
  else if ¬ ExistsModFileVersion db vid then Except.error DbErr.checkFailed
  else if db.profileItems.any (fun it =>
      it.profileId = pid && it.modFileVersionId = vid) then
    Except.error DbErr.uniqueViolation
  else
    let iid := freshId (db.profileItems.map (fun it => it.id))
    Except.ok
      ({ db with profileItems := db.profileItems ++ [⟨iid, pid, vid, enabled, priority⟩] },
        iid)

/-- Embedding of the transaction body of `profiles add` (part_006):
validate the version, compute or validate the priority — an explicit
nonzero priority must not already be taken; priority 0 means automatic
assignment of `max + 1` with no taken-check — then insert the item.
The returned Int is the priority actually written. -/
def profilesAdd (db : Db) (pid vid : Nat) (requested : Int)
    (disabled : Bool) : Except DbErr (Db × Nat × Int) :=
  if ¬ ExistsModFileVersion db vid then Except.error DbErr.noRows
  else if requested = 0 then
    let priority := wrap64 (GetMaxPriorityForProfile db pid + 1)
    match CreateProfileItem db pid vid (¬ disabled) priority with
    | Except.error e => Except.error e
    | Except.ok (db', iid) => Except.ok (db', iid, priority)
  else if IsPriorityTaken db pid requested then
    Except.error (DbErr.invariant "priority is already used in profile")
  else
    match CreateProfileItem db pid vid (¬ disabled) requested with
    | Except.error e => Except.error e
    | Except.ok (db', iid) => Except.ok (db', iid, requested)

/-! ## Importer (Go `cmd/init.go` mods-import and package `importer`)

The extraction collaborator's `list` capability (an external `bsdtar
-t` subprocess under a timeout) and the tar.gz wrapping (external gzip
and tar encoders) are the two external primitives; they are parameters
`listOK : Bytes → Bool` and `wrapBytes : Bytes → Bytes` of the
embedding, applied to the bytes of the file being listed and wrapped.
The SHA-256 digest `H` is shared with the blob store embedding. -/

/-- `filepath.Base`. -/
def goBase (p : String) : String :=
  match (splitSegs p).reverse with
  | b :: _ => b
  | [] => if goIsAbs p then "/" else "."

/-- `bsdtarListOK`: run the lister on the file at path `p` (failure to
open the file behaves as a listing failure, as the subprocess would
report). -/
def bsdtarListOK (listOK : Bytes → Bool) (fs : FS) (p : String) : Bool :=
  match FS.lookup fs p with
  | some content => listOK content
  | none => false

structure PrepResult where
  PathToImport : String
  Wrapped : Bool
  WrappedFrom : String
  MemberName : String
deriving DecidableEq

inductive ImportErr where
  | badArchive
  | openSrc
  | ingest (e : IngestErr)
  | db (e : DbErr)
  | pageNotFound
deriving DecidableEq

/-- Embedding of `prepareImportArchive`: validate the input with the
list capability; on failure wrap it into a single-entry tar.gz at
`wrapTmp` in the tmp root and re-validate; if even the wrap cannot be
listed, fail (`cleanup` removes the wrap, so the error path leaves the
caller's filesystem as it was). -/
def prepareImportArchive (listOK : Bytes → Bool) (wrapBytes : Bytes → Bytes)
    (wrapTmp : String) (fs : FS) (input : String) :
    Except ImportErr (PrepResult × FS) :=
  if bsdtarListOK listOK fs input then
    Except.ok (⟨input, false, "", ""⟩, fs)
  else
    match FS.lookup fs input with
    | none => Except.error ImportErr.openSrc
    | some content =>
      let fs1 := FS.set fs wrapTmp (wrapBytes content)
      if bsdtarListOK listOK fs1 wrapTmp then
        Except.ok (⟨wrapTmp, true, "", ""⟩, fs1)
      else Except.error ImportErr.badArchive

structure ImportOptions where
  gameInstallId : Nat
  archivePath : String
  nexusUrl : Option String
  nexusGameDomain : Option String
  nexusModId : Option Int
  pageId : Option Nat
  modName : Option String
  fileLabel : Option String
  wrapped : Bool
  originalBasename : String
deriving DecidableEq

structure ImportOut where
  pageId : Nat
  fileId : Nat
  versionId : Nat
  sha : String
  size : Nat
deriving DecidableEq

/-- `GetModPageForGame`. -/
def GetModPageForGame (db : Db) (pid gid : Nat) : Option ModPageRow :=
  db.modPages.find? (fun p => p.id = pid && p.gameInstallId = gid)

/-- `GetModPageByNexus` (both nexus identifiers are non-NULL on this
path). -/
def GetModPageByNexus (db : Db) (gid : Nat) (dom : String) (mid : Int) :
    Option ModPageRow :=
  db.modPages.find? (fun p => p.gameInstallId = gid &&
    p.sourceKind = "nexus" && p.nexusGameDomain = some dom &&
    p.nexusModId = some mid)

/-- `CreateModPage`. -/
def CreateModPage (db : Db) (gid : Nat) (name sourceKind : String)
    (srcUrl dom : Option String) (mid : Option Int) : Db × Nat :=
  let pid := freshId (db.modPages.map (fun p => p.id))
  ({ db with modPages := db.modPages ++ [⟨pid, gid, name, sourceKind, srcUrl, dom, mid⟩] },
    pid)

/-- `GetModFileByLabel`. -/
def GetModFileByLabel (db : Db) (pid : Nat) (label : String) :
    Option ModFileRow :=
  db.modFiles.find? (fun f => f.modPageId = pid && f.label = label)

/-- `CountModFilesForPage`. -/
def CountModFilesForPage (db : Db) (pid : Nat) : Nat :=
  (db.modFiles.filter (fun f => f.modPageId = pid)).length

/-- `CreateModFile`. -/
def CreateModFile (db : Db) (pid : Nat) (label : String) (isPrimary : Bool) :
    Db × Nat :=
  let fid := freshId (db.modFiles.map (fun f => f.id))
  ({ db with modFiles := db.modFiles ++ [⟨fid, pid, label, isPrimary⟩] }, fid)

/-- Step 5 of `ImportArchive`: decide the mod page id, creating a page
if necessary (explicit page id takes precedence; otherwise reuse a
matching nexus page or create a new one). -/
def resolveImportPageDefault (db : Db) (opts : ImportOptions)
    (pageName sourceKind : String) : Db × Nat :=
  let found :=
    match opts.nexusGameDomain, opts.nexusModId with
    | some dom, some mid => GetModPageByNexus db opts.gameInstallId dom mid
    | _, _ => none
  match found with
  | some p => (db, p.id)
  | none =>
    CreateModPage db opts.gameInstallId pageName sourceKind opts.nexusUrl
      opts.nexusGameDomain opts.nexusModId

def resolveImportPage (db : Db) (opts : ImportOptions)
    (pageName sourceKind : String) : Except ImportErr (Db × Nat) :=
  match opts.pageId with
  | some pid =>
    if ¬ pid = 0 then
      match GetModPageForGame db pid opts.gameInstallId with
      | some p => Except.ok (db, p.id)
      | none => Except.error ImportErr.pageNotFound
    else Except.ok (resolveImportPageDefault db opts pageName sourceKind)
  | none => Except.ok (resolveImportPageDefault db opts pageName sourceKind)

/-- Steps 6–7 of `ImportArchive`: find-or-create the labelled
`mod_file` (primary iff the page had no file yet) and create the
`mod_file_version` referencing the blob. -/
def importFileAndVersion (db : Db) (opts : ImportOptions) (pageId : Nat)
    (sha : String) : Except ImportErr (Db × Nat × Nat) :=
  let label :=
    match opts.fileLabel with
    | some l => if l = "" then "Main File" else l
    | none => "Main File"
  let fileRes :=
    match GetModFileByLabel db pageId label with
    | some mf => (db, mf.id)
    | none =>
      let cnt := CountModFilesForPage db pageId
      CreateModFile db pageId label (cnt = 0)
  let db2 := fileRes.1
  let fileId := fileRes.2
  let m : Option (String × String) :=
    if opts.wrapped then some ("", "") else none
  let vid := freshId (db2.modFileVersions.map (fun v => v.id))
  match insertModFileVersion db2
      ⟨vid, fileId, sha,
        (if opts.originalBasename = "" then none else some opts.originalBasename),
        m⟩ with
  | Except.error e => Except.error (ImportErr.db e)
  | Except.ok db3 => Except.ok (db3, fileId, vid)

/-- Embedding of `importer.ImportArchive`: ingest the archive into the
blob store first (filesystem is authoritative; this happens outside
the transaction), then in one transaction record the blob row, decide
the mod page, find-or-create the mod file and create the version.  A
database error rolls the transaction back — the returned second
component is the filesystem, which keeps the ingested blob in that
case. -/
def ImportArchive (H : Bytes → String) (done : Nat → Bool) (s : Store)
    (tmpName : String) (db : Db) (fs : FS) (opts : ImportOptions) (now : Nat) :
    Except ImportErr (Db × ImportOut) × FS :=
  match FS.lookup fs opts.archivePath with
  | none => (Except.error ImportErr.openSrc, fs)
  | some content =>
    match s.IngestFile H done tmpName fs Kind.archive content with
    | (Except.error e, fs') => (Except.error (ImportErr.ingest e), fs')
    | (Except.ok res, fs') =>
      let sha := res.SHA256Hex
      let size := res.SizeBytes
      let base := goBase opts.archivePath
      match EnsureBlobRecorded db sha "archive" size (some base) now with
      | Except.error e => (Except.error (ImportErr.db e), fs')
      | Except.ok db1 =>
        let pageName :=
          match opts.modName with
          | some nm => if nm = "" then base else nm
          | none => base
        let sourceKind :=
          if opts.nexusGameDomain.isSome && opts.nexusModId.isSome then
            "nexus"
          else "local"
        match resolveImportPage db1 opts pageName sourceKind with
        | Except.error e => (Except.error e, fs')
        | Except.ok (db2, pageId) =>
          match importFileAndVersion db2 opts pageId sha with
          | Except.error e => (Except.error e, fs')
          | Except.ok (db3, fileId, vid) =>
            (Except.ok (db3, ⟨pageId, fileId, vid, sha, size⟩), fs')

/-- The mods-import command flow around the importer (cmd/init.go):
validate/wrap first, import only when a listable variant exists, and
remove the wrap temp afterwards (`defer prep.Cleanup()`).  On any
error the metadata store is left as it was. -/
def modsImportFlow (listOK : Bytes → Bool) (wrapBytes : Bytes → Bytes)
    (wrapTmp : String) (H : Bytes → String) (done : Nat → Bool) (s : Store)
    (ingestTmp : String) (db : Db) (fs : FS) (gid : Nat) (input : String)
    (now : Nat) : Except ImportErr (Db × ImportOut) × FS :=
  match prepareImportArchive listOK wrapBytes wrapTmp fs input with
  | Except.error e => (Except.error e, fs)
  | Except.ok (prep, fs1) =>
    let opts : ImportOptions :=
      ⟨gid, prep.PathToImport, none, none, none, none, none, none,
        prep.Wrapped, goBase input⟩
    match ImportArchive H done s ingestTmp db fs1 opts now with
    | (r, fs2) => (r, if prep.Wrapped then FS.erase fs2 wrapTmp else fs2)

/-! ## Active-selection sidecar (Go `internal/state`)

Modelled from the spec: the `Active` struct in the provided
`internal/state` source lists only `active_store_id` and `updated_at`,
while every caller in the repository reads and writes
`ActiveGameInstallID` and `ActiveGameInstallSelector` as well — the
record persisted under the user's state directory tracks the active
game-install id and active store id (§6).  The record is therefore
modelled with the fields the callers use.  `SaveActive` itself is
embedded from the source: serialize, write `<path>.tmp`, rename into
place. -/

structure ActiveState where
  ActiveStoreID : String
  ActiveGameInstallID : Nat
  ActiveGameInstallSelector : Str
deriving DecidableEq

structure GameInstall where
  id : Nat
  storeId : String
  storeGameId : String
  instanceId : String
  displayName : String
deriving DecidableEq

/-- Embedding of `persistActiveGameInstall`: load-modify-save of the
sidecar record (the pure modification part). -/
def persistActiveGameInstall (a : ActiveState) (gi : GameInstall) :
    ActiveState :=
  { a with
    ActiveStoreID := gi.storeId
    ActiveGameInstallID := gi.id
    ActiveGameInstallSelector :=
      FullSelector gi.storeId.data gi.storeGameId.data gi.instanceId.data }

/-- The observable filesystem states while `SaveActive` runs: the
initial state, the temp file being written byte by byte
(`os.WriteFile` of `<path>.tmp` gives no atomicity), and the state
after the atomic rename of the temp file onto the final path.
`encode` is the JSON serialization (external). -/
def saveActiveStates (encode : ActiveState → Bytes) (fs : FS) (p : String)
    (a : ActiveState) : List FS :=
  let b := encode a
  let tmp := p ++ ".tmp"
  fs :: ((List.range (b.length + 1)).map (fun k => FS.set fs tmp (b.take k)))
    ++ [FS.set (FS.erase (FS.set fs tmp b) tmp) p b]

/-- The final filesystem after `SaveActive` returns. -/
def saveActiveFinal (encode : ActiveState → Bytes) (fs : FS) (p : String)
    (a : ActiveState) : FS :=
  let b := encode a
  let tmp := p ++ ".tmp"
  FS.set (FS.erase (FS.set fs tmp b) tmp) p b

/-! ## Sample values for concrete evaluations -/

/-- A fixed 64-character digest value, standing in for a SHA-256 hex
digest in concrete evaluations. -/
def sampleSha : String :=
  "aaaaaaaaaaaaaaaaaaaaaaaaaaaaaaaaaaaaaaaaaaaaaaaaaaaaaaaaaaaaaaaa"

def sampleStore : Store := ⟨"ar", "ba", "ov", "tm"⟩

/-- `PathFor` of `sampleSha` under `sampleStore`'s archive root. -/
def samplePath : String :=
  "ar/aa/aaaaaaaaaaaaaaaaaaaaaaaaaaaaaaaaaaaaaaaaaaaaaaaaaaaaaaaaaaaaaaaa"

/-- A database with one user-overridden `game_dir` target, for
concrete evaluation. -/
def overrideDb : Db :=
  { emptyDb with
    targets := [⟨1, 1, "game_dir", "/old", Origin.user_override, none, 0, 0⟩] }

/-- A database holding one archive blob row, for concrete
evaluation. -/
def kindDb : Db :=
  { emptyDb with blobs := [⟨sampleSha, "archive", 5, none, none⟩] }

/-- A profile whose items sit at the two extremes of the int64
priority range (both reachable through explicit `--priority`
values). -/
def dupPriorityDb : Db :=
  { emptyDb with
    profiles := [⟨1, 1, "default", true⟩]
    modFileVersions :=
      [⟨1, 1, sampleSha, none, none⟩, ⟨2, 2, sampleSha, none, none⟩,
        ⟨3, 3, sampleSha, none, none⟩]
    profileItems :=
      [⟨1, 1, 1, true, int64Max⟩, ⟨2, 1, 2, true, int64Min⟩] }

/-- The priority a successful `profiles add` wrote. -/
def addedPriority (r : Except DbErr (Db × Nat × Int)) : Option Int :=
  match r with
  | Except.ok (_, _, p) => some p
  | Except.error _ => none

/-- The database a successful `profiles add` produced. -/
def addedDb (r : Except DbErr (Db × Nat × Int)) : Db :=
  match r with
  | Except.ok (db, _, _) => db
  | Except.error _ => emptyDb

/-- How many items of a profile carry a given priority. -/
def countPriority (db : Db) (pid : Nat) (prio : Int) : Nat :=
  (db.profileItems.filter
    (fun it => it.profileId = pid && it.priority = prio)).length

/-- A target row for concrete evaluation of the reachability
invariant. -/
def c2Target : TargetRow := ⟨1, 1, "game_dir", "/g", Origin.discovered, none, 0, 0⟩

/-- A valid installed-file row under `c2Target`. -/
def c2Row : InstalledFileRow := ⟨1, 1, 1, "a.txt", sampleSha, 3, some 1, none⟩

def c2Db1 : Db := { emptyDb with targets := [c2Target] }

def c2Db2 : Db := { c2Db1 with installedFiles := [c2Row] }

/-- A profile with one item at priority 5, for concrete evaluation of
the explicit-priority rejection. -/
def takenPriorityDb : Db :=
  { emptyDb with
    profiles := [⟨1, 1, "default", true⟩]
    modFileVersions :=
      [⟨1, 1, sampleSha, none, none⟩, ⟨2, 2, sampleSha, none, none⟩]
    profileItems := [⟨1, 1, 1, true, 5⟩] }

/-- A lister that rejects every byte sequence, for concrete evaluation
of the import bad-archive path. -/
def c5ListOK : Bytes → Bool := fun _ => false

/-- A concrete wrapper (prepends a header byte). -/
def c5Wrap : Bytes → Bytes := fun b => 0 :: b

/-- A concrete digest function (constant, with a 64-character hex
output). -/
def c5H : Bytes → String := fun _ => sampleSha

/-- A filesystem holding one candidate archive. -/
def c5Fs : FS := [("a.zip", [2, 3])]

/-! # Theorems -/

/-! ## Filesystem lemmas -/

theorem FS.lookup_set_self (fs : FS) (p : String) (b : Bytes) :
    FS.lookup (FS.set fs p b) p = some b := by
  simp [FS.lookup, FS.set, List.find?_cons]

theorem FS.find_filter_ne (fs : FS) (p q : String) (h : ¬ q = p) :
    List.find? (fun kv => kv.1 = q)
        (List.filter (fun kv => ¬ kv.1 = p) fs) =
      List.find? (fun kv => kv.1 = q) fs := by
  induction fs with
  | nil => simp
  | cons kv rest ih =>
    rw [List.filter_cons]
    by_cases hkv : kv.1 = p
    · rw [if_neg (by simp [hkv])]
      rw [List.find?_cons_of_neg _ (by simp; intro hq; exact h (hq ▸ hkv))]
      exact ih
    · rw [if_pos (by simpa using hkv)]
      by_cases hq : kv.1 = q
      · rw [List.find?_cons_of_pos _ (by simpa using hq),
          List.find?_cons_of_pos _ (by simpa using hq)]
      · rw [List.find?_cons_of_neg _ (by simpa using hq),
          List.find?_cons_of_neg _ (by simpa using hq)]
        exact ih

theorem FS.lookup_set_ne (fs : FS) (p q : String) (b : Bytes)
    (h : ¬ q = p) : FS.lookup (FS.set fs p b) q = FS.lookup fs q := by
  unfold FS.lookup FS.set
  rw [List.find?_cons_of_neg _ (by simp; intro hq; exact h hq.symm)]
  rw [FS.find_filter_ne fs p q h]

theorem FS.lookup_none_filter (fs : FS) (p : String)
    (h : FS.lookup fs p = none) :
    fs.filter (fun kv => ¬ kv.1 = p) = fs := by
  have hfind : List.find? (fun kv => kv.1 = p) fs = none := by
    unfold FS.lookup at h
    cases hf : List.find? (fun kv => decide (kv.1 = p)) fs with
    | none => rfl
    | some v => rw [hf] at h; simp at h
  rw [List.filter_eq_self]
  intro kv hkv
  have := List.find?_eq_none.mp hfind kv hkv
  simpa using this

theorem FS.erase_set_self (fs : FS) (p : String) (b : Bytes)
    (h : FS.lookup fs p = none) : FS.erase (FS.set fs p b) p = fs := by
  simp only [FS.erase, FS.set, List.filter_cons]
  rw [if_neg (by simp)]
  rw [List.filter_filter]
  have : ∀ kv : String × Bytes,
      ((¬ kv.1 = p : Bool) && (¬ kv.1 = p : Bool)) = (¬ kv.1 = p : Bool) := by
    intro kv; cases hb : (¬ kv.1 = p : Bool) <;> simp [hb]
  simp only [this]
  exact FS.lookup_none_filter fs p h

/-! ## Copy-loop lemmas -/

theorem copyWithContext_nil (done : Nat → Bool) (i total : Nat) :
    copyWithContext done i total [] =
      if done i then (total, true) else (total, false) := by
  rw [copyWithContext.eq_def]

theorem copyWithContext_cons (done : Nat → Bool) (i total : Nat) (x : Nat)
    (xs : Bytes) :
    copyWithContext done i total (x :: xs) =
      if done i then (total, true)
      else
        copyWithContext done (i + 1) (total + ((x :: xs).take bufLen).length)
          ((x :: xs).drop bufLen) := by
  rw [copyWithContext.eq_def]

theorem copyWithContext_no_cancel (n : Nat) :
    ∀ src : Bytes, src.length ≤ n → ∀ i total : Nat,
      copyWithContext (fun _ => false) i total src =
        (total + src.length, false) := by
  induction n with
  | zero =>
    intro src h i total
    have hnil : src = [] := List.eq_nil_of_length_eq_zero (Nat.le_zero.mp h)
    subst hnil
    rw [copyWithContext_nil]
    simp
  | succ n ih =>
    intro src h i total
    cases src with
    | nil =>
      rw [copyWithContext_nil]
      simp
    | cons x xs =>
      rw [copyWithContext_cons, if_neg (by simp)]
      rw [ih ((x :: xs).drop bufLen)
        (by simp only [List.length_drop, List.length_cons]
            simp only [List.length_cons] at h
            have hb : 0 < bufLen := by decide
            omega) (i + 1) (total + ((x :: xs).take bufLen).length)]
      simp only [List.length_take, List.length_drop, List.length_cons]
      rw [Prod.mk.injEq]
      constructor
      · omega
      · rfl

theorem chunkSizes_le (src : Bytes) :
    ∀ c ∈ chunkSizes src, c ≤ 1024 * 1024 := by
  induction src using chunkSizes.induct with
  | case1 => intro c hc; simp [chunkSizes] at hc
  | case2 x xs ih =>
    intro c hc
    rw [chunkSizes] at hc
    rcases List.mem_cons.mp hc with h | h
    · subst h
      simp only [List.length_take, List.length_cons]
      exact le_trans (Nat.min_le_left _ _) (le_refl bufLen)
    · exact ih c h

theorem copyWithContext_cancelled (done : Nat → Bool) (n : Nat) :
    ∀ src : Bytes, src.length ≤ n → ∀ i total : Nat,
      (∃ k, k ≤ (chunkSizes src).length ∧ done (i + k) = true) →
      (copyWithContext done i total src).2 = true := by
  induction n with
  | zero =>
    intro src h i total ⟨k, hk, hd⟩
    have : src = [] := List.eq_nil_of_length_eq_zero (Nat.le_zero.mp h)
    subst this
    simp only [chunkSizes, List.length_nil, Nat.le_zero] at hk
    subst hk
    simp only [Nat.add_zero] at hd
    rw [copyWithContext, if_pos hd]
  | succ n ih =>
    intro src h i total ⟨k, hk, hd⟩
    cases src with
    | nil =>
      simp only [chunkSizes, List.length_nil, Nat.le_zero] at hk
      subst hk
      simp only [Nat.add_zero] at hd
      rw [copyWithContext_nil, if_pos hd]
    | cons x xs =>
      rw [copyWithContext_cons]
      by_cases hdone : done i = true
      · rw [if_pos hdone]
      · rw [if_neg hdone]
        have hk0 : ¬ k = 0 := by
          intro h0; subst h0; simp only [Nat.add_zero] at hd; exact hdone hd
        apply ih ((x :: xs).drop bufLen)
          (by simp only [List.length_drop, List.length_cons]
              simp only [List.length_cons] at h
              have hb : 0 < bufLen := by decide
              omega)
        refine ⟨k - 1, ?_, ?_⟩
        · rw [chunkSizes] at hk
          simp only [List.length_cons] at hk
          omega
        · have hik : i + 1 + (k - 1) = i + k := by omega
          rw [hik]
          exact hd

/-! ## Claim C1 — blob-store ingest idempotence -/

theorem IngestFile_no_cancel (s : Store) (H : Bytes → String)
    (tmpName : String) (fs : FS) (kind : Kind) (src : Bytes)
    (finalPath : String) (hPF : s.PathFor kind (H src) = some finalPath)
    (htmp : FS.lookup fs tmpName = none) (hne : ¬ tmpName = finalPath) :
    s.IngestFile H (fun _ => false) tmpName fs kind src =
      match FS.lookup fs finalPath with
      | some existing =>
        if existing.length = src.length then
          (Except.ok ⟨H src, src.length, true⟩, fs)
        else (Except.error (IngestErr.corruption finalPath), fs)
      | none =>
        (Except.ok ⟨H src, src.length, false⟩, FS.set fs finalPath src) := by
  unfold Store.IngestFile
  rw [copyWithContext_no_cancel src.length src (le_refl _) 0 0]
  simp only [Nat.zero_add, List.take_length, hPF, Bool.false_eq_true, if_false]
  rw [FS.lookup_set_ne fs tmpName finalPath src (fun hq => hne hq.symm)]
  cases hfp : FS.lookup fs finalPath with
  | some existing =>
    simp only []
    by_cases hlen : existing.length = src.length
    · rw [if_pos hlen, FS.erase_set_self fs tmpName src htmp, if_pos hlen]
    · rw [if_neg hlen, FS.erase_set_self fs tmpName src htmp, if_neg hlen]
  | none =>
    simp only []
    rw [FS.erase_set_self fs tmpName src htmp]

theorem ingestRepeat_fixed (s : Store) (H : Bytes → String)
    (tmpName : String) (kind : Kind) (src : Bytes) (finalPath : String)
    (hPF : s.PathFor kind (H src) = some finalPath) (fs : FS)
    (htmp : FS.lookup fs tmpName = none) (hne : ¬ tmpName = finalPath)
    (hfp : FS.lookup fs finalPath = some src) :
    ∀ n, ingestRepeat s H tmpName kind src n fs = fs := by
  intro n
  induction n with
  | zero => rfl
  | succ n ih =>
    show ingestRepeat s H tmpName kind src n _ = fs
    rw [IngestFile_no_cancel s H tmpName fs kind src finalPath hPF htmp hne]
    rw [hfp]
    simp only [if_pos rfl]
    exact ih

/-- C1: Blob-store ingest is idempotent per byte content.  With the
blob absent, the first ingest creates exactly the one file at
`PathFor(kind, sha)` holding the streamed bytes, every repeat of the
same ingest leaves the store in that same state, other paths are
untouched, and the file's length is the streamed byte count; an ingest
against an already-present identical blob reports `existed = true`
with the same `(sha, size)` and does not rewrite the store; a
pre-existing file at the final path with a different length makes the
ingest fail with the corruption error and leaves the store
unchanged. -/
theorem C1_blob_ingest_idempotent (s : Store) (H : Bytes → String)
    (tmpName : String) (fs : FS) (kind : Kind) (src : Bytes)
    (finalPath : String) (hPF : s.PathFor kind (H src) = some finalPath)
    (htmp : FS.lookup fs tmpName = none) (hne : ¬ tmpName = finalPath) :
    (FS.lookup fs finalPath = none →
      s.IngestFile H (fun _ => false) tmpName fs kind src =
        (Except.ok ⟨H src, src.length, false⟩, FS.set fs finalPath src) ∧
      (∀ n, ingestRepeat s H tmpName kind src (n + 1) fs =
        FS.set fs finalPath src) ∧
      FS.lookup (FS.set fs finalPath src) finalPath = some src ∧
      (∀ q, ¬ q = finalPath →
        FS.lookup (FS.set fs finalPath src) q = FS.lookup fs q)) ∧
    (FS.lookup fs finalPath = some src →
      s.IngestFile H (fun _ => false) tmpName fs kind src =
        (Except.ok ⟨H src, src.length, true⟩, fs)) ∧
    (∀ c, FS.lookup fs finalPath = some c → ¬ c.length = src.length →
      s.IngestFile H (fun _ => false) tmpName fs kind src =
        (Except.error (IngestErr.corruption finalPath), fs)) := by
  refine ⟨?_, ?_, ?_⟩
  · intro hnone
    have hfirst : s.IngestFile H (fun _ => false) tmpName fs kind src =
        (Except.ok ⟨H src, src.length, false⟩, FS.set fs finalPath src) := by
      rw [IngestFile_no_cancel s H tmpName fs kind src finalPath hPF htmp hne]
      rw [hnone]
    refine ⟨hfirst, ?_, FS.lookup_set_self fs finalPath src,
      fun q hq => FS.lookup_set_ne fs finalPath q src hq⟩
    intro n
    show ingestRepeat s H tmpName kind src n _ = _
    rw [hfirst]
    have htmp2 : FS.lookup (FS.set fs finalPath src) tmpName = none := by
      rw [FS.lookup_set_ne fs finalPath tmpName src hne]
      exact htmp
    exact ingestRepeat_fixed s H tmpName kind src finalPath hPF
      (FS.set fs finalPath src) htmp2 hne
      (FS.lookup_set_self fs finalPath src) n
  · intro hsome
    rw [IngestFile_no_cancel s H tmpName fs kind src finalPath hPF htmp hne]
    rw [hsome]
    simp only [if_pos rfl]
    rw [if_pos trivial]
  · intro c hc hlen
    rw [IngestFile_no_cancel s H tmpName fs kind src finalPath hPF htmp hne]
    rw [hc]
    simp only [if_neg hlen]

/-! ## Claim C4 — cancellation leaves no partial files -/

/-- C4: When the cancellation signal fires at one of the copy loop's
per-iteration checks, `IngestFile` returns the cancellation error and
the filesystem is exactly as before — no file at the final blob path,
and the temp file under tmp/incoming removed; moreover every read the
loop performs is a chunk of at most 1 MiB. -/
theorem C4_ingest_cancellation (s : Store) (H : Bytes → String)
    (done : Nat → Bool) (tmpName : String) (fs : FS) (kind : Kind)
    (src : Bytes)
    (hfire : ∃ k, k ≤ (chunkSizes src).length ∧ done k = true)
    (htmp : FS.lookup fs tmpName = none) :
    s.IngestFile H done tmpName fs kind src =
      (Except.error IngestErr.cancelled, fs) ∧
    (∀ c ∈ chunkSizes src, c ≤ 1024 * 1024) := by
  have hcan : (copyWithContext done 0 0 src).2 = true := by
    rcases hfire with ⟨k, hk, hd⟩
    exact copyWithContext_cancelled done src.length src (le_refl _) 0 0
      ⟨k, hk, by simpa using hd⟩
  refine ⟨?_, chunkSizes_le src⟩
  unfold Store.IngestFile
  have hpair : copyWithContext done 0 0 src =
      ((copyWithContext done 0 0 src).1, true) := by
    rw [← hcan]
  rw [hpair]
  simp only
  rw [if_pos trivial]
  rw [FS.erase_set_self fs tmpName _ htmp]

theorem C1_blob_ingest_idempotent_witness :
    Store.IngestFile sampleStore (fun _ => sampleSha) (fun _ => false)
        "tm/incoming/i0" [] Kind.archive [7] =
      (Except.ok ⟨sampleSha, 1, false⟩, FS.set [] samplePath [7]) :=
  ((C1_blob_ingest_idempotent sampleStore (fun _ => sampleSha)
      "tm/incoming/i0" [] Kind.archive [7] samplePath (by decide) rfl
      (by decide)).1 rfl).1

theorem C4_ingest_cancellation_witness :
    Store.IngestFile sampleStore (fun _ => sampleSha) (fun _ => true)
        "tm/incoming/i0" [] Kind.archive [7] =
      (Except.error IngestErr.cancelled, []) ∧
    (∀ c ∈ chunkSizes [7], c ≤ 1024 * 1024) :=
  C4_ingest_cancellation sampleStore (fun _ => sampleSha) (fun _ => true)
    "tm/incoming/i0" [] Kind.archive [7] ⟨0, Nat.zero_le _, rfl⟩ rfl

/-! ## Claim C7 — active-selection sidecar -/

theorem String.append_tmp_ne (p : String) : ¬ p = p ++ ".tmp" := by
  intro h
  have hlen : p.length = (p ++ ".tmp").length := by rw [← h]
  rw [String.length_append] at hlen
  have h4 : String.length ".tmp" = 4 := rfl
  omega

/-- C7: The sidecar record set by `games set-active` carries both the
active game-install id and the active store id, and `SaveActive`
persists it via temp-file-plus-rename: in every filesystem state a
reader can observe during the save, the record path holds either the
complete old contents or the complete new serialized record — never a
partial write — and after the save it holds the new record. -/
theorem C7_active_sidecar (encode : ActiveState → Bytes) (fs : FS)
    (p : String) (a : ActiveState) (gi : GameInstall) :
    ((persistActiveGameInstall a gi).ActiveStoreID = gi.storeId ∧
      (persistActiveGameInstall a gi).ActiveGameInstallID = gi.id) ∧
    (∀ st ∈ saveActiveStates encode fs p (persistActiveGameInstall a gi),
      FS.lookup st p = FS.lookup fs p ∨
        FS.lookup st p = some (encode (persistActiveGameInstall a gi))) ∧
    FS.lookup (saveActiveFinal encode fs p (persistActiveGameInstall a gi)) p
      = some (encode (persistActiveGameInstall a gi)) := by
  refine ⟨⟨rfl, rfl⟩, ?_, ?_⟩
  · intro st hst
    simp only [saveActiveStates] at hst
    rcases List.mem_cons.mp hst with hinit | hrest
    · subst hinit; exact Or.inl rfl
    rcases List.mem_append.mp hrest with hmid | hlast
    · rcases List.mem_map.mp hmid with ⟨k, hk, hset⟩
      subst hset
      left
      exact FS.lookup_set_ne fs (p ++ ".tmp") p _ (String.append_tmp_ne p)
    · have hfin := List.mem_singleton.mp hlast
      subst hfin
      right
      exact FS.lookup_set_self _ p _
  · exact FS.lookup_set_self _ p _

theorem C7_active_sidecar_witness :
    FS.lookup (saveActiveFinal (fun _ => [1]) [] "a.json"
      (persistActiveGameInstall ⟨"", 0, []⟩ ⟨5, "steam", "123", "default", "g"⟩))
      "a.json" = some [1] ∧
    (FS.lookup ([] : FS) "a.json" = FS.lookup ([] : FS) "a.json" ∨
      FS.lookup ([] : FS) "a.json" = some [1]) :=
  ⟨(C7_active_sidecar (fun _ => [1]) [] "a.json" ⟨"", 0, []⟩
      ⟨5, "steam", "123", "default", "g"⟩).2.2,
    (C7_active_sidecar (fun _ => [1]) [] "a.json" ⟨"", 0, []⟩
      ⟨5, "steam", "123", "default", "g"⟩).2.1 []
      (by simp [saveActiveStates])⟩

/-! ## Claim C6 — discovery never overwrites a user override -/

/-- C6: For every refresh, if the `game_dir` target of a discovered
install already exists with origin `user_override`, the whole database
is left untouched (the row keeps its root path, origin, metadata and
timestamps); every row the upsert creates or rewrites is the
`game_dir` row of this install with origin `discovered` and the
discovered root path; rows of any other target key pass through
unchanged. -/
theorem C6_discovery_respects_user_override (db : Db) (gid : Nat)
    (installRoot : String) (now : Nat)
    (hwf : ∀ t1 ∈ db.targets, ∀ t2 ∈ db.targets,
      t1.gameInstallId = t2.gameInstallId → t1.name = t2.name → t1 = t2) :
    ((∃ t ∈ db.targets, t.gameInstallId = gid ∧ t.name = "game_dir" ∧
        t.origin = Origin.user_override) →
      upsertGameDirTarget db gid installRoot now = db) ∧
    (∀ r ∈ (upsertGameDirTarget db gid installRoot now).targets,
      r ∈ db.targets ∨
        (r.gameInstallId = gid ∧ r.name = "game_dir" ∧
          r.origin = Origin.discovered ∧ r.rootPath = installRoot ∧
          r.updatedAt = now)) ∧
    (∀ r ∈ db.targets, ¬ (r.gameInstallId = gid ∧ r.name = "game_dir") →
      r ∈ (upsertGameDirTarget db gid installRoot now).targets) := by
  refine ⟨?_, ?_, ?_⟩
  · rintro ⟨t, ht, htg, htn, hto⟩
    unfold upsertGameDirTarget
    cases hfind : GetTargetByName db gid "game_dir" with
    | none =>
      exfalso
      have := List.find?_eq_none.mp hfind t ht
      simp [htg, htn] at this
    | some t0 =>
      have ht0 : t0 ∈ db.targets ∧ (t0.gameInstallId = gid ∧ t0.name = "game_dir") := by
        have hmem := List.mem_of_find?_eq_some hfind
        have hsat := List.find?_some hfind
        simp only [Bool.and_eq_true, decide_eq_true_eq] at hsat
        exact ⟨hmem, hsat⟩
      have hteq : t0 = t :=
        hwf t0 ht0.1 t ht (by rw [ht0.2.1, htg]) (by rw [ht0.2.2, htn])
      simp only []
      rw [if_pos (by rw [hteq]; exact hto)]
  · intro r hr
    unfold upsertGameDirTarget at hr
    cases hfind : GetTargetByName db gid "game_dir" with
    | none =>
      rw [hfind] at hr
      unfold UpsertDiscoveredTarget at hr
      by_cases hany : db.targets.any
          (fun t => t.gameInstallId = gid && t.name = "game_dir") = true
      · exfalso
        rcases List.any_eq_true.mp hany with ⟨t, ht, hsat⟩
        simp only [Bool.and_eq_true, decide_eq_true_eq] at hsat
        have := List.find?_eq_none.mp hfind t ht
        simp [hsat.1, hsat.2] at this
      · rw [if_neg hany] at hr
        simp only [List.mem_append, List.mem_singleton] at hr
        rcases hr with hold | hnew
        · exact Or.inl hold
        · subst hnew
          exact Or.inr ⟨rfl, rfl, rfl, rfl, rfl⟩
    | some t0 =>
      rw [hfind] at hr
      simp only [] at hr
      by_cases hov : t0.origin = Origin.user_override
      · rw [if_pos hov] at hr
        exact Or.inl hr
      · rw [if_neg hov] at hr
        unfold UpsertDiscoveredTarget at hr
        by_cases hany : db.targets.any
            (fun t => t.gameInstallId = gid && t.name = "game_dir") = true
        · rw [if_pos hany] at hr
          simp only [List.mem_map] at hr
          rcases hr with ⟨t, ht, hrt⟩
          by_cases hkey : (t.gameInstallId = gid && t.name = "game_dir") = true
          · rw [if_pos hkey] at hrt
            subst hrt
            simp only [Bool.and_eq_true, decide_eq_true_eq] at hkey
            exact Or.inr ⟨hkey.1, hkey.2, rfl, rfl, rfl⟩
          · rw [if_neg hkey] at hrt
            subst hrt
            exact Or.inl ht
        · exfalso
          apply hany
          apply List.any_eq_true.mpr
          refine ⟨t0, List.mem_of_find?_eq_some hfind, ?_⟩
          have hsat := List.find?_some hfind
          exact hsat
  · intro r hr hkey
    unfold upsertGameDirTarget
    cases hfind : GetTargetByName db gid "game_dir" with
    | none =>
      unfold UpsertDiscoveredTarget
      by_cases hany : db.targets.any
          (fun t => t.gameInstallId = gid && t.name = "game_dir") = true
      · rw [if_pos hany]
        simp only [List.mem_map]
        refine ⟨r, hr, ?_⟩
        rw [if_neg (by simp only [Bool.and_eq_true, decide_eq_true_eq]; exact hkey)]
      · rw [if_neg hany]
        exact List.mem_append.mpr (Or.inl hr)
    | some t0 =>
      simp only []
      by_cases hov : t0.origin = Origin.user_override
      · rw [if_pos hov]
        exact hr
      · rw [if_neg hov]
        unfold UpsertDiscoveredTarget
        by_cases hany : db.targets.any
            (fun t => t.gameInstallId = gid && t.name = "game_dir") = true
        · rw [if_pos hany]
          simp only [List.mem_map]
          refine ⟨r, hr, ?_⟩
          rw [if_neg (by simp only [Bool.and_eq_true, decide_eq_true_eq]; exact hkey)]
        · rw [if_neg hany]
          exact List.mem_append.mpr (Or.inl hr)

theorem C6_discovery_respects_user_override_witness :
    upsertGameDirTarget overrideDb 1 "/new" 5 = overrideDb :=
  (C6_discovery_respects_user_override overrideDb 1 "/new" 5 (by decide)).1
    (by decide)

/-! ## Claim C3 — a blob keeps one kind (and size) for its lifetime -/

/-- C3: Re-recording an existing SHA-256 with a different kind or a
different size fails with an invariant-violation error (and a matching
re-record returns with the database untouched, so the existing row is
never modified); and every referencing insert is accepted only when
the referenced blob exists with the kind its column requires —
`mod_file_versions` needs kind `archive`, `backups` kind `backup`,
`overrides` kind `override` — and is rejected otherwise. -/
theorem C3_blob_kind_immutable :
    (∀ (db : Db) (sha kind : String) (size : Nat) (orig : Option String)
        (now : Nat) (e0 : BlobRow), GetBlob db sha = some e0 →
      (¬ e0.kind = kind ∨ ¬ e0.sizeBytes = size) →
      ∃ msg, EnsureBlobRecorded db sha kind size orig now =
        Except.error (DbErr.invariant msg)) ∧
    (∀ (db : Db) (sha kind : String) (size : Nat) (orig : Option String)
        (now : Nat) (e0 : BlobRow), GetBlob db sha = some e0 →
      e0.kind = kind → e0.sizeBytes = size →
      EnsureBlobRecorded db sha kind size orig now = Except.ok db) ∧
    (∀ (db : Db) (r : ModFileVersionRow) (db' : Db),
      insertModFileVersion db r = Except.ok db' →
      blobHasKind db r.archiveSha256 "archive" = true) ∧
    (∀ (db : Db) (r : ModFileVersionRow),
      ¬ blobHasKind db r.archiveSha256 "archive" = true →
      ∃ e, insertModFileVersion db r = Except.error e) ∧
    (∀ (db : Db) (r : BackupRow) (db' : Db),
      insertBackup db r = Except.ok db' →
      blobHasKind db r.backupBlobSha256 "backup" = true) ∧
    (∀ (db : Db) (r : BackupRow),
      ¬ blobHasKind db r.backupBlobSha256 "backup" = true →
      ∃ e, insertBackup db r = Except.error e) ∧
    (∀ (db : Db) (r : OverrideRow) (db' : Db),
      insertOverride db r = Except.ok db' →
      blobHasKind db r.blobSha256 "override" = true) ∧
    (∀ (db : Db) (r : OverrideRow),
      ¬ blobHasKind db r.blobSha256 "override" = true →
      ∃ e, insertOverride db r = Except.error e) := by
  refine ⟨?_, ?_, ?_, ?_, ?_, ?_, ?_, ?_⟩
  · intro db sha kind size orig now e0 hget hdiff
    unfold EnsureBlobRecorded
    rw [hget]
    simp only []
    by_cases hk : e0.kind = kind
    · rw [if_neg (by simpa using hk)]
      rcases hdiff with h | h
      · exact absurd hk h
      · rw [if_pos (by simpa using h)]
        exact ⟨_, rfl⟩
    · rw [if_pos (by simpa using hk)]
      exact ⟨_, rfl⟩
  · intro db sha kind size orig now e0 hget hk hs
    unfold EnsureBlobRecorded
    rw [hget]
    simp only []
    rw [if_neg (by simp [hk]), if_neg (by simp [hs])]
  · intro db r db' h
    unfold insertModFileVersion at h
    split_ifs at h
    assumption
  · intro db r hbad
    unfold insertModFileVersion
    split_ifs
    all_goals exact ⟨_, rfl⟩
  · intro db r db' h
    unfold insertBackup at h
    split_ifs at h
    assumption
  · intro db r hbad
    unfold insertBackup
    split_ifs
    all_goals exact ⟨_, rfl⟩
  · intro db r db' h
    unfold insertOverride at h
    split_ifs at h
    assumption
  · intro db r hbad
    unfold insertOverride
    split_ifs
    all_goals exact ⟨_, rfl⟩

theorem C3_blob_kind_immutable_witness :
    ∃ msg, EnsureBlobRecorded kindDb sampleSha "backup" 5 none 0 =
      Except.error (DbErr.invariant msg) :=
  C3_blob_kind_immutable.1 kindDb sampleSha "backup" 5 none 0
    ⟨sampleSha, "archive", 5, none, none⟩ (by decide) (Or.inl (by decide))

/-! ## Claim C9 — duplicate priorities in a profile -/

theorem mem_le_foldl_max :
    ∀ (l : List Int) (a x : Int), x ∈ a :: l → x ≤ l.foldl max a := by
  intro l
  induction l with
  | nil =>
    intro a x hx
    rw [List.mem_singleton] at hx
    subst hx
    exact le_refl x
  | cons b t ih =>
    intro a x hx
    show x ≤ t.foldl max (max a b)
    rcases List.mem_cons.mp hx with hxa | hxbt
    · subst hxa
      exact le_trans (le_max_left x b)
        (ih (max x b) (max x b) (List.mem_cons_self _ _))
    rcases List.mem_cons.mp hxbt with hxb | hxt
    · subst hxb
      exact le_trans (le_max_right a x)
        (ih (max a x) (max a x) (List.mem_cons_self _ _))
    · exact ih (max a b) x (List.mem_cons.mpr (Or.inr hxt))

theorem GetMaxPriorityForProfile_ge (db : Db) (pid : Nat)
    (it : ProfileItemRow) (hit : it ∈ db.profileItems)
    (hp : it.profileId = pid) :
    it.priority ≤ GetMaxPriorityForProfile db pid := by
  unfold GetMaxPriorityForProfile
  have hmem : it.priority ∈
      (db.profileItems.filter (fun x => x.profileId = pid)).map
        (fun x => x.priority) :=
    List.mem_map.mpr ⟨it, List.mem_filter.mpr ⟨hit, by simpa using hp⟩, rfl⟩
  cases hfl : (db.profileItems.filter (fun x => x.profileId = pid)).map
      (fun x => x.priority) with
  | nil => rw [hfl] at hmem; simp at hmem
  | cons p ps =>
    rw [hfl] at hmem
    exact mem_le_foldl_max ps p it.priority hmem

theorem GetMaxPriorityForProfile_lb (db : Db) (pid : Nat)
    (hrange : ∀ it ∈ db.profileItems,
      int64Min ≤ it.priority ∧ it.priority ≤ int64Max) :
    int64Min ≤ GetMaxPriorityForProfile db pid := by
  unfold GetMaxPriorityForProfile
  cases hfl : (db.profileItems.filter (fun x => x.profileId = pid)).map
      (fun x => x.priority) with
  | nil =>
    show int64Min ≤ 0
    unfold int64Min
    norm_num
  | cons p ps =>
    have hpm : p ∈ (db.profileItems.filter (fun x => x.profileId = pid)).map
        (fun x => x.priority) := by rw [hfl]; exact List.mem_cons_self _ _
    rcases List.mem_map.mp hpm with ⟨it, hitf, hpit⟩
    have hitm := List.mem_of_mem_filter hitf
    have hlo := (hrange it hitm).1
    calc int64Min ≤ it.priority := hlo
      _ = p := hpit
      _ ≤ ps.foldl max p := mem_le_foldl_max ps p p (List.mem_cons_self _ _)

theorem wrap64_eq_self (z : Int) (h1 : int64Min ≤ z) (h2 : z ≤ int64Max) :
    wrap64 z = z := by
  unfold wrap64
  unfold int64Min at h1
  unfold int64Max at h2
  have hlo : 0 ≤ z + 2 ^ 63 := by omega
  have hhi : z + 2 ^ 63 < 2 ^ 64 := by
    have hp : (2 : Int) ^ 64 = 2 ^ 63 + 2 ^ 63 := by ring
    omega
  rw [Int.emod_eq_of_lt hlo hhi]
  omega

/-- C9 counterexample: starting from a profile whose items carry
priorities 2^63 − 1 and −2^63 (both reachable through explicit
`--priority` values), a `profiles add` without an explicit priority
(`--priority 0`, the default) computes `max + 1` in int64 arithmetic,
which wraps to −2^63; the taken-check is skipped on this path and
`profile_items` has no UNIQUE on `(profile_id, priority)`, so the
insert succeeds and the profile ends with two items at the same
priority — the addition was not rejected. -/
theorem C9_duplicate_priority_counterexample :
    addedPriority (profilesAdd dupPriorityDb 1 3 0 false) = some int64Min ∧
    IsPriorityTaken dupPriorityDb 1 int64Min = true ∧
    countPriority (addedDb (profilesAdd dupPriorityDb 1 3 0 false)) 1
      int64Min = 2 := by
  decide

/-- C9 (amended): An explicit nonzero requested priority that is
already used in the profile is rejected before any row is written;
and whenever the addition succeeds — including the automatic
`max + 1` path taken for requested priority 0 — the priority written
was not previously taken, provided the int64 computation does not
overflow (all stored priorities lie in the int64 range and, for the
automatic path, the profile's maximum priority is below 2^63 − 1). -/
theorem C9_duplicate_priority_amended (db : Db) (pid vid : Nat)
    (requested : Int) (disabled : Bool)
    (hrange : ∀ it ∈ db.profileItems,
      int64Min ≤ it.priority ∧ it.priority ≤ int64Max)
    (hmax : requested = 0 → GetMaxPriorityForProfile db pid < int64Max) :
    (∀ db' iid p,
      profilesAdd db pid vid requested disabled = Except.ok (db', iid, p) →
      IsPriorityTaken db pid p = false ∧
      db'.profileItems = db.profileItems ++ [⟨iid, pid, vid, ¬ disabled, p⟩]) ∧
    (¬ requested = 0 → ExistsModFileVersion db vid = true →
      IsPriorityTaken db pid requested = true →
      profilesAdd db pid vid requested disabled =
        Except.error (DbErr.invariant "priority is already used in profile")) := by
  constructor
  · intro db' iid p h
    have hnotTaken : ∀ q : Int, int64Min ≤ q → q ≤ int64Max →
        GetMaxPriorityForProfile db pid < q →
        IsPriorityTaken db pid q = false := by
      intro q _ _ hgt
      by_contra htk
      rw [Bool.not_eq_false] at htk
      rcases List.any_eq_true.mp htk with ⟨it, hit, hsat⟩
      simp only [Bool.and_eq_true, decide_eq_true_eq] at hsat
      have := GetMaxPriorityForProfile_ge db pid it hit hsat.1
      rw [hsat.2] at this
      omega
    unfold profilesAdd at h
    by_cases hex : ExistsModFileVersion db vid = true
    · rw [if_neg (by simpa using hex)] at h
      by_cases hreq : requested = 0
      · rw [if_pos hreq] at h
        simp only [] at h
        cases hcr : CreateProfileItem db pid vid (¬ disabled)
            (wrap64 (GetMaxPriorityForProfile db pid + 1)) with
        | error e => rw [hcr] at h; simp at h
        | ok pr =>
          rw [hcr] at h
          simp only [] at h
          rw [Except.ok.injEq, Prod.ext_iff, Prod.ext_iff] at h
          obtain ⟨hdb', hiid, hp⟩ := h
          simp only [] at hdb' hiid hp
          subst hdb'
          subst hiid
          subst hp
          have hw : wrap64 (GetMaxPriorityForProfile db pid + 1) =
              GetMaxPriorityForProfile db pid + 1 := by
            apply wrap64_eq_self
            · have hlb := GetMaxPriorityForProfile_lb db pid hrange
              unfold int64Min at *
              omega
            · have hub := hmax hreq
              unfold int64Max at *
              omega
          unfold CreateProfileItem at hcr
          split_ifs at hcr
          constructor
          · rw [hw]
            apply hnotTaken
            · have hlb := GetMaxPriorityForProfile_lb db pid hrange
              unfold int64Min int64Max at *
              omega
            · have hub := hmax hreq
              unfold int64Max at *
              omega
            · omega
          · simp only [] at hcr
            rw [Except.ok.injEq] at hcr
            rw [← hcr]
      · rw [if_neg hreq] at h
        by_cases htk : IsPriorityTaken db pid requested = true
        · rw [if_pos htk] at h; simp at h
        · rw [if_neg htk] at h
          cases hcr : CreateProfileItem db pid vid (¬ disabled) requested with
          | error e => rw [hcr] at h; simp at h
          | ok pr =>
            rw [hcr] at h
            simp only [] at h
            rw [Except.ok.injEq, Prod.ext_iff, Prod.ext_iff] at h
            obtain ⟨hdb', hiid, hp⟩ := h
            simp only [] at hdb' hiid hp
            subst hdb'
            subst hiid
            subst hp
            unfold CreateProfileItem at hcr
            split_ifs at hcr
            constructor
            · simpa using htk
            · simp only [] at hcr
              rw [Except.ok.injEq] at hcr
              rw [← hcr]
    · rw [if_pos (by simpa using hex)] at h
      simp at h
  · intro hreq hex htk
    unfold profilesAdd
    rw [if_neg (by simpa using hex), if_neg hreq, if_pos htk]

theorem C9_duplicate_priority_amended_witness :
    profilesAdd takenPriorityDb 1 2 5 false =
      Except.error (DbErr.invariant "priority is already used in profile") :=
  (C9_duplicate_priority_amended takenPriorityDb 1 2 5 false (by decide)
    (by decide)).2 (by decide) (by decide) (by decide)

/-! ## Claim C2 — owner and target/install invariants at the boundary -/

theorem insertInstalledFile_ok_iff (db : Db) (r : InstalledFileRow)
    (db' : Db) (h : insertInstalledFile db r = Except.ok db') :
    db' = { db with installedFiles := db.installedFiles ++ [r] } ∧
    installedFileCheck r = true ∧
    targetBelongs db r.targetId r.gameInstallId = true := by
  unfold insertInstalledFile at h
  split_ifs at h with h1 h2 h3
  exact ⟨(Except.ok.inj h).symm, h1, h2⟩

theorem updateInstalledFile_ok_iff (db : Db) (rid : Nat)
    (r : InstalledFileRow) (db' : Db)
    (h : updateInstalledFile db rid r = Except.ok db') :
    ∃ old, db.installedFiles.find? (fun x => x.id = rid) = some old ∧
      db' = { db with installedFiles :=
        db.installedFiles.map (fun x => if x.id = rid then r else x) } ∧
      installedFileCheck r = true ∧
      ((r.targetId = old.targetId ∧ r.gameInstallId = old.gameInstallId) ∨
        targetBelongs db r.targetId r.gameInstallId = true) := by
  unfold updateInstalledFile at h
  cases hf : db.installedFiles.find? (fun x => x.id = rid) with
  | none => rw [hf] at h; simp at h
  | some old =>
    rw [hf] at h
    simp only [] at h
    split_ifs at h with h1 h2 h3
    refine ⟨old, rfl, (Except.ok.inj h).symm, h2, ?_⟩
    by_cases heq : r.targetId = old.targetId ∧ r.gameInstallId = old.gameInstallId
    · exact Or.inl heq
    · right
      by_contra hnb
      apply h3
      simp only [Bool.and_eq_true, decide_eq_true_eq]
      exact ⟨heq, hnb⟩

theorem insertBackup_ok_iff (db : Db) (r : BackupRow) (db' : Db)
    (h : insertBackup db r = Except.ok db') :
    db' = { db with backups := db.backups ++ [r] } ∧
    targetBelongs db r.targetId r.gameInstallId = true := by
  unfold insertBackup at h
  split_ifs at h with h1 h2 h3 h4
  exact ⟨(Except.ok.inj h).symm, h3⟩

theorem updateBackup_ok_iff (db : Db) (rid : Nat) (r : BackupRow) (db' : Db)
    (h : updateBackup db rid r = Except.ok db') :
    ∃ old, db.backups.find? (fun x => x.id = rid) = some old ∧
      db' = { db with backups :=
        db.backups.map (fun x => if x.id = rid then r else x) } ∧
      ((r.targetId = old.targetId ∧ r.gameInstallId = old.gameInstallId) ∨
        targetBelongs db r.targetId r.gameInstallId = true) := by
  unfold updateBackup at h
  cases hf : db.backups.find? (fun x => x.id = rid) with
  | none => rw [hf] at h; simp at h
  | some old =>
    rw [hf] at h
    simp only [] at h
    split_ifs at h with h1 h2 h3
    refine ⟨old, rfl, (Except.ok.inj h).symm, ?_⟩
    by_cases heq : r.targetId = old.targetId ∧ r.gameInstallId = old.gameInstallId
    · exact Or.inl heq
    · right
      by_contra hnb
      apply h3
      simp only [Bool.and_eq_true, decide_eq_true_eq]
      exact ⟨heq, hnb⟩

theorem insertOpChange_ok_iff (db : Db) (r : OpChangeRow) (db' : Db)
    (h : insertOpChange db r = Except.ok db') :
    db' = { db with opChanges := db.opChanges ++ [r] } ∧
    targetBelongs db r.targetId r.gameInstallId = true := by
  unfold insertOpChange at h
  split_ifs at h with h1 h2 h3
  exact ⟨(Except.ok.inj h).symm, h2⟩

theorem updateOpChange_ok_iff (db : Db) (rid : Nat) (r : OpChangeRow)
    (db' : Db) (h : updateOpChange db rid r = Except.ok db') :
    ∃ old, db.opChanges.find? (fun x => x.id = rid) = some old ∧
      db' = { db with opChanges :=
        db.opChanges.map (fun x => if x.id = rid then r else x) } ∧
      ((r.targetId = old.targetId ∧ r.gameInstallId = old.gameInstallId) ∨
        targetBelongs db r.targetId r.gameInstallId = true) := by
  unfold updateOpChange at h
  cases hf : db.opChanges.find? (fun x => x.id = rid) with
  | none => rw [hf] at h; simp at h
  | some old =>
    rw [hf] at h
    simp only [] at h
    split_ifs at h with h1 h2 h3 h4
    refine ⟨old, rfl, (Except.ok.inj h).symm, ?_⟩
    by_cases heq : r.targetId = old.targetId ∧ r.gameInstallId = old.gameInstallId
    · exact Or.inl heq
    · right
      by_contra hnb
      apply h3
      simp only [Bool.and_eq_true, decide_eq_true_eq]
      exact ⟨heq, hnb⟩

theorem EnsureBlobRecorded_frame (db : Db) (sha kind : String) (size : Nat)
    (orig : Option String) (now : Nat) (db' : Db)
    (h : EnsureBlobRecorded db sha kind size orig now = Except.ok db') :
    db'.targets = db.targets ∧ db'.installedFiles = db.installedFiles ∧
    db'.backups = db.backups ∧ db'.opChanges = db.opChanges := by
  unfold EnsureBlobRecorded at h
  cases hg : GetBlob db sha with
  | some e =>
    rw [hg] at h
    simp only [] at h
    split_ifs at h
    rw [← Except.ok.inj h]
    exact ⟨rfl, rfl, rfl, rfl⟩
  | none =>
    rw [hg] at h
    simp only [] at h
    unfold InsertBlob at h
    split_ifs at h
    rw [← Except.ok.inj h]
    exact ⟨rfl, rfl, rfl, rfl⟩

theorem targetBelongs_append (db : Db) (t : TargetRow) (tid gid : Nat)
    (h : targetBelongs db tid gid = true) :
    targetBelongs { db with targets := db.targets ++ [t] } tid gid = true := by
  unfold targetBelongs at h ⊢
  have happ : (db.targets ++ [t]).any
      (fun t => t.id = tid && t.gameInstallId = gid) = true := by
    rw [List.any_append, h, Bool.true_or]
  exact happ

theorem targetBelongs_filter (db : Db) (tid gid delId : Nat)
    (h : targetBelongs db tid gid = true) (hne : ¬ tid = delId) :
    (db.targets.filter (fun t => ¬ t.id = delId)).any
      (fun t => t.id = tid && t.gameInstallId = gid) = true := by
  unfold targetBelongs at h
  rcases List.any_eq_true.mp h with ⟨t, ht, hsat⟩
  apply List.any_eq_true.mpr
  refine ⟨t, List.mem_filter.mpr ⟨ht, ?_⟩, hsat⟩
  simp only [Bool.and_eq_true, decide_eq_true_eq] at hsat
  simp only [decide_eq_true_eq]
  rw [hsat.1]
  exact hne

theorem DbInv_frame (db db' : Db) (hT : db'.targets = db.targets)
    (hIF : db'.installedFiles = db.installedFiles)
    (hB : db'.backups = db.backups) (hOC : db'.opChanges = db.opChanges)
    (h : DbInv db) : DbInv db' := by
  obtain ⟨h1, h2, h3⟩ := h
  refine ⟨?_, ?_, ?_⟩
  · intro r hr
    rw [hIF] at hr
    obtain ⟨ho, hb⟩ := h1 r hr
    refine ⟨ho, ?_⟩
    unfold targetBelongs
    rw [hT]
    exact hb
  · intro r hr
    rw [hB] at hr
    unfold targetBelongs
    rw [hT]
    exact h2 r hr
  · intro r hr
    rw [hOC] at hr
    unfold targetBelongs
    rw [hT]
    exact h3 r hr

theorem ownerCheck_of_check (r : InstalledFileRow)
    (h : installedFileCheck r = true) :
    (r.ownerModFileVersionId.isSome ∧ r.ownerOverrideId = none) ∨
    (r.ownerModFileVersionId = none ∧ r.ownerOverrideId.isSome) := by
  unfold installedFileCheck at h
  simp only [Bool.and_eq_true, Bool.or_eq_true, decide_eq_true_eq] at h
  rcases h.2 with hc | hc
  · exact Or.inl ⟨hc.1, Option.isNone_iff_eq_none.mp hc.2⟩
  · exact Or.inr ⟨Option.isNone_iff_eq_none.mp hc.1, hc.2⟩

/-- C2: In every database state reachable through the boundary
operations of the schema, every installed_files row has exactly one
owner set and every installed_files, backups, and operation_changes
row references a target of its own game install; the boundary rejects
any insert that would violate the owner CHECK or the
target-matches-install triggers. -/
theorem C2_owner_and_target_invariants :
    (∀ db, Reach db → DbInv db) ∧
    (∀ (db : Db) (r : InstalledFileRow),
      ¬ (installedFileCheck r = true ∧
          targetBelongs db r.targetId r.gameInstallId = true) →
      ∃ e, insertInstalledFile db r = Except.error e) ∧
    (∀ (db : Db) (r : BackupRow),
      ¬ targetBelongs db r.targetId r.gameInstallId = true →
      ∃ e, insertBackup db r = Except.error e) ∧
    (∀ (db : Db) (r : OpChangeRow),
      ¬ targetBelongs db r.targetId r.gameInstallId = true →
      ∃ e, insertOpChange db r = Except.error e) := by
  refine ⟨?_, ?_, ?_, ?_⟩
  · intro db hr
    induction hr with
    | init =>
      refine ⟨?_, ?_, ?_⟩ <;> intro r hrm <;> simp [emptyDb] at hrm
    | insTarget db t hre ih =>
      obtain ⟨ih1, ih2, ih3⟩ := ih
      refine ⟨?_, ?_, ?_⟩
      · intro r hrm
        obtain ⟨ho, hb⟩ := ih1 r hrm
        exact ⟨ho, targetBelongs_append db t _ _ hb⟩
      · intro r hrm
        exact targetBelongs_append db t _ _ (ih2 r hrm)
      · intro r hrm
        exact targetBelongs_append db t _ _ (ih3 r hrm)
    | delTarget db tid hre ih =>
      obtain ⟨ih1, ih2, ih3⟩ := ih
      refine ⟨?_, ?_, ?_⟩
      · intro r hrm
        have hrm' : r ∈ db.installedFiles.filter
            (fun x => ¬ x.targetId = tid) := hrm
        have hne : ¬ r.targetId = tid := by
          have hq := List.of_mem_filter hrm'
          simpa using hq
        obtain ⟨ho, hb⟩ := ih1 r (List.mem_of_mem_filter hrm')
        exact ⟨ho, targetBelongs_filter db _ _ tid hb hne⟩
      · intro r hrm
        have hrm' : r ∈ db.backups.filter
            (fun x => ¬ x.targetId = tid) := hrm
        have hne : ¬ r.targetId = tid := by
          have hq := List.of_mem_filter hrm'
          simpa using hq
        exact targetBelongs_filter db _ _ tid
          (ih2 r (List.mem_of_mem_filter hrm')) hne
      · intro r hrm
        have hrm' : r ∈ db.opChanges.filter
            (fun x => ¬ x.targetId = tid) := hrm
        have hne : ¬ r.targetId = tid := by
          have hq := List.of_mem_filter hrm'
          simpa using hq
        exact targetBelongs_filter db _ _ tid
          (ih3 r (List.mem_of_mem_filter hrm')) hne
    | recordBlob db db' sha kind size orig now hre hop ih =>
      obtain ⟨hT, hIF, hB, hOC⟩ :=
        EnsureBlobRecorded_frame db sha kind size orig now db' hop
      exact DbInv_frame db db' hT hIF hB hOC ih
    | insInstalled db db' r hre hop ih =>
      obtain ⟨hdb', hcheck, hbel⟩ := insertInstalledFile_ok_iff db r db' hop
      subst hdb'
      obtain ⟨ih1, ih2, ih3⟩ := ih
      refine ⟨?_, ih2, ih3⟩
      intro x hx
      rcases List.mem_append.mp hx with hold | hnew
      · exact ih1 x hold
      · rw [List.mem_singleton] at hnew
        subst hnew
        exact ⟨ownerCheck_of_check x hcheck, hbel⟩
    | updInstalled db db' rid r hre hop ih =>
      obtain ⟨old, hfind, hdb', hcheck, hcase⟩ :=
        updateInstalledFile_ok_iff db rid r db' hop
      subst hdb'
      obtain ⟨ih1, ih2, ih3⟩ := ih
      refine ⟨?_, ih2, ih3⟩
      intro x hx
      rcases List.mem_map.mp hx with ⟨y, hy, hxy⟩
      by_cases hid : y.id = rid
      · rw [if_pos hid] at hxy
        subst hxy
        refine ⟨ownerCheck_of_check r hcheck, ?_⟩
        rcases hcase with ⟨ht, hg⟩ | hb
        · have hbold := (ih1 old (List.mem_of_find?_eq_some hfind)).2
          show targetBelongs _ r.targetId r.gameInstallId = true
          unfold targetBelongs at hbold ⊢
          rw [ht, hg]
          exact hbold
        · exact hb
      · rw [if_neg hid] at hxy
        subst hxy
        exact ih1 y hy
    | delInstalled db rid hre ih =>
      obtain ⟨ih1, ih2, ih3⟩ := ih
      refine ⟨?_, ih2, ih3⟩
      intro x hx
      exact ih1 x (List.mem_of_mem_filter hx)
    | insBackup db db' r hre hop ih =>
      obtain ⟨hdb', hbel⟩ := insertBackup_ok_iff db r db' hop
      subst hdb'
      obtain ⟨ih1, ih2, ih3⟩ := ih
      refine ⟨ih1, ?_, ih3⟩
      intro x hx
      rcases List.mem_append.mp hx with hold | hnew
      · exact ih2 x hold
      · rw [List.mem_singleton] at hnew
        subst hnew
        exact hbel
    | updBackup db db' rid r hre hop ih =>
      obtain ⟨old, hfind, hdb', hcase⟩ := updateBackup_ok_iff db rid r db' hop
      subst hdb'
      obtain ⟨ih1, ih2, ih3⟩ := ih
      refine ⟨ih1, ?_, ih3⟩
      intro x hx
      rcases List.mem_map.mp hx with ⟨y, hy, hxy⟩
      by_cases hid : y.id = rid
      · rw [if_pos hid] at hxy
        subst hxy
        rcases hcase with ⟨ht, hg⟩ | hb
        · have hbold := ih2 old (List.mem_of_find?_eq_some hfind)
          show targetBelongs _ r.targetId r.gameInstallId = true
          unfold targetBelongs at hbold ⊢
          rw [ht, hg]
          exact hbold
        · exact hb
      · rw [if_neg hid] at hxy
        subst hxy
        exact ih2 y hy
    | delBackup db rid hre ih =>
      obtain ⟨ih1, ih2, ih3⟩ := ih
      refine ⟨ih1, ?_, ih3⟩
      intro x hx
      exact ih2 x (List.mem_of_mem_filter hx)
    | insOpChange db db' r hre hop ih =>
      obtain ⟨hdb', hbel⟩ := insertOpChange_ok_iff db r db' hop
      subst hdb'
      obtain ⟨ih1, ih2, ih3⟩ := ih
      refine ⟨ih1, ih2, ?_⟩
      intro x hx
      rcases List.mem_append.mp hx with hold | hnew
      · exact ih3 x hold
      · rw [List.mem_singleton] at hnew
        subst hnew
        exact hbel
    | updOpChange db db' rid r hre hop ih =>
      obtain ⟨old, hfind, hdb', hcase⟩ := updateOpChange_ok_iff db rid r db' hop
      subst hdb'
      obtain ⟨ih1, ih2, ih3⟩ := ih
      refine ⟨ih1, ih2, ?_⟩
      intro x hx
      rcases List.mem_map.mp hx with ⟨y, hy, hxy⟩
      by_cases hid : y.id = rid
      · rw [if_pos hid] at hxy
        subst hxy
        rcases hcase with ⟨ht, hg⟩ | hb
        · have hbold := ih3 old (List.mem_of_find?_eq_some hfind)
          show targetBelongs _ r.targetId r.gameInstallId = true
          unfold targetBelongs at hbold ⊢
          rw [ht, hg]
          exact hbold
        · exact hb
      · rw [if_neg hid] at hxy
        subst hxy
        exact ih3 y hy
    | delOpChange db rid hre ih =>
      obtain ⟨ih1, ih2, ih3⟩ := ih
      refine ⟨ih1, ih2, ?_⟩
      intro x hx
      exact ih3 x (List.mem_of_mem_filter hx)
  · intro db r hbad
    unfold insertInstalledFile
    split_ifs with h1 h2 h3
    all_goals first
      | exact ⟨_, rfl⟩
      | exact absurd ⟨h1, h2⟩ hbad
  · intro db r hbad
    unfold insertBackup
    split_ifs
    all_goals exact ⟨_, rfl⟩
  · intro db r hbad
    unfold insertOpChange
    split_ifs
    all_goals exact ⟨_, rfl⟩

theorem C2_owner_and_target_invariants_witness : DbInv c2Db2 :=
  C2_owner_and_target_invariants.1 c2Db2
    (Reach.insInstalled c2Db1 c2Db2 c2Row
      (Reach.insTarget emptyDb c2Target Reach.init) (by rfl))

/-! ## Claim C8 — IsUnderDir containment -/

theorem cleanAbsAux_no_dotdot :
    ∀ (l acc : List String), (∀ x ∈ acc, ¬ x = "..") →
      ∀ x ∈ cleanAbsAux acc l, ¬ x = ".." := by
  intro l
  induction l with
  | nil =>
    intro acc hacc x hx
    rw [cleanAbsAux] at hx
    exact hacc x (List.mem_reverse.mp hx)
  | cons seg rest ih =>
    intro acc hacc x hx
    rw [cleanAbsAux] at hx
    by_cases hdot : seg = "."
    · rw [if_pos hdot] at hx
      exact ih acc hacc x hx
    · rw [if_neg hdot] at hx
      by_cases hdd : seg = ".."
      · rw [if_pos hdd] at hx
        exact ih (acc.drop 1) (fun y hy => hacc y (List.mem_of_mem_drop hy))
          x hx
      · rw [if_neg hdd] at hx
        refine ih (seg :: acc) ?_ x hx
        intro y hy
        rcases List.mem_cons.mp hy with hys | hym
        · subst hys; exact hdd
        · exact hacc y hym

theorem absSegs_no_dotdot (cwd p : String) :
    ∀ x ∈ absSegs cwd p, ¬ x = ".." := by
  unfold absSegs cleanAbs
  by_cases hs : goIsAbs p = true
  · rw [if_pos hs]
    exact cleanAbsAux_no_dotdot _ [] (by intro x hx; simp at hx)
  · rw [if_neg hs]
    exact cleanAbsAux_no_dotdot _ [] (by intro x hx; simp at hx)

theorem dropCommon_self : ∀ l : List String, dropCommon l l = ([], []) := by
  intro l
  induction l with
  | nil => rfl
  | cons x xs ih =>
    rw [dropCommon]
    rw [if_pos rfl]
    exact ih

theorem dropCommon_fst_nil :
    ∀ b t : List String, (dropCommon b t).1 = [] →
      t = b ++ (dropCommon b t).2 := by
  intro b
  induction b with
  | nil =>
    intro t h
    cases t with
    | nil => rfl
    | cons c rc => rfl
  | cons a ra ih =>
    intro t h
    cases t with
    | nil =>
      have hfst : (dropCommon (a :: ra) ([] : List String)).1 = a :: ra := rfl
      rw [hfst] at h
      simp at h
    | cons c rc =>
      rw [dropCommon] at h ⊢
      by_cases hac : a = c
      · rw [if_pos hac] at h ⊢
        subst hac
        rw [List.cons_append]
        rw [← ih rc h]
      · rw [if_neg hac] at h
        simp at h

theorem dropCommon_fst_nil_of_append :
    ∀ (b r : List String), (dropCommon b (b ++ r)).1 = [] := by
  intro b
  induction b with
  | nil =>
    intro r
    cases r with
    | nil => rfl
    | cons x xs => rfl
  | cons a ra ih =>
    intro r
    rw [List.cons_append, dropCommon, if_pos rfl]
    exact ih r

theorem dropCommon_snd_subset :
    ∀ (b t : List String) (x : String), x ∈ (dropCommon b t).2 → x ∈ t := by
  intro b
  induction b with
  | nil =>
    intro t x hx
    have hsnd : (dropCommon ([] : List String) t).2 = t := by
      cases t <;> rfl
    rw [hsnd] at hx
    exact hx
  | cons a ra ih =>
    intro t x hx
    cases t with
    | nil =>
      have hsnd : (dropCommon (a :: ra) ([] : List String)).2 = [] := rfl
      rw [hsnd] at hx
      simp at hx
    | cons c rc =>
      rw [dropCommon] at hx
      by_cases hac : a = c
      · rw [if_pos hac] at hx
        exact List.mem_cons.mpr (Or.inr (ih rc x hx))
      · rw [if_neg hac] at hx
        simpa using hx

/-- C8: `IsUnderDir` converts both arguments to absolute form and
decides containment through the relative path: it returns true exactly
when the absolute, cleaned segment sequence of the path extends that
of the directory (so in particular a path equal to the directory is
inside), and a sibling whose name merely extends the directory's last
component — `/foo/bar-baz` against `/foo/bar` — is reported outside,
as no string-prefix comparison is involved. -/
theorem C8_isUnderDir_containment (cwd path dir : String) :
    (IsUnderDir cwd path dir = true ↔
      ∃ rest, absSegs cwd path = absSegs cwd dir ++ rest) ∧
    IsUnderDir cwd dir dir = true ∧
    IsUnderDir cwd "/foo/bar-baz" "/foo/bar" = false := by
  refine ⟨?_, ?_, ?_⟩
  · unfold IsUnderDir relSegs
    simp only []
    cases hb : (dropCommon (absSegs cwd dir) (absSegs cwd path)).1 with
    | nil =>
      simp only [List.length_nil, List.replicate_zero, List.nil_append]
      constructor
      · intro _
        exact ⟨(dropCommon (absSegs cwd dir) (absSegs cwd path)).2,
          dropCommon_fst_nil _ _ hb⟩
      · intro _
        cases hs : (dropCommon (absSegs cwd dir) (absSegs cwd path)).2 with
        | nil => rfl
        | cons s srest =>
          simp only []
          have hsmem : s ∈ absSegs cwd path := by
            apply dropCommon_snd_subset (absSegs cwd dir)
            rw [hs]
            exact List.mem_cons_self _ _
          simpa using absSegs_no_dotdot cwd path s hsmem
    | cons a arest =>
      simp only [List.length_cons, List.replicate_succ, List.cons_append]
      constructor
      · intro hfalse
        simp at hfalse
      · rintro ⟨rest, hrest⟩
        exfalso
        have hnil := dropCommon_fst_nil_of_append (absSegs cwd dir) rest
        rw [← hrest] at hnil
        rw [hb] at hnil
        simp at hnil
  · unfold IsUnderDir relSegs
    simp only []
    rw [dropCommon_self]
    rfl
  · have h1 : absSegs cwd "/foo/bar-baz" = cleanAbs (splitSegs "/foo/bar-baz") := by
      unfold absSegs
      exact if_pos (by decide)
    have h2 : absSegs cwd "/foo/bar" = cleanAbs (splitSegs "/foo/bar") := by
      unfold absSegs
      exact if_pos (by decide)
    unfold IsUnderDir
    rw [h1, h2]
    decide

/-! ## C10: selector round-trip (helper lemmas and claim theorems) -/


theorem charToNat_ofNat (n : Nat) (h : n.isValidChar) : (Char.ofNat n).toNat = n := by
  rw [Char.ofNat, dif_pos h]
  rfl

theorem char_le_iff_toNat (a b : Char) : a ≤ b ↔ a.toNat ≤ b.toNat := Iff.rfl

theorem char_eq_iff_toNat (a b : Char) : a = b ↔ a.toNat = b.toNat := by
  constructor
  · intro h; rw [h]
  · intro h
    exact Char.ext (UInt32.toNat.inj h)

theorem goToLower_toNat (c : Char) :
    (goToLower c).toNat =
      if 65 ≤ c.toNat ∧ c.toNat ≤ 90 then c.toNat + 32 else c.toNat := by
  unfold goToLower
  by_cases h : 65 ≤ c.toNat ∧ c.toNat ≤ 90
  · have hb : ('A' ≤ c && c ≤ 'Z') = true := by
      simp only [Bool.and_eq_true, decide_eq_true_eq, char_le_iff_toNat]
      exact ⟨h.1, h.2⟩
    rw [hb, if_pos rfl, if_pos h]
    exact charToNat_ofNat _ (Or.inl (by omega))
  · have hb : ('A' ≤ c && c ≤ 'Z') = false := by
      rw [Bool.and_eq_false_iff]
      by_cases h1 : 65 ≤ c.toNat
      · right
        simp only [decide_eq_false_iff_not, char_le_iff_toNat,
          show Char.toNat 'Z' = 90 from rfl]
        omega
      · left
        simp only [decide_eq_false_iff_not, char_le_iff_toNat,
          show Char.toNat 'A' = 65 from rfl]
        omega
    rw [hb, if_neg h]
    simp

theorem goIsSpace_iff (c : Char) :
    goIsSpace c = true ↔
      ((9 ≤ c.toNat ∧ c.toNat ≤ 13) ∨ c.toNat = 32 ∨ c.toNat = 0x85 ∨
        c.toNat = 0xA0 ∨ c.toNat = 0x1680 ∨
        (0x2000 ≤ c.toNat ∧ c.toNat ≤ 0x200A) ∨ c.toNat = 0x2028 ∨
        c.toNat = 0x2029 ∨ c.toNat = 0x202F ∨ c.toNat = 0x205F ∨
        c.toNat = 0x3000) := by
  unfold goIsSpace
  simp only [Bool.or_eq_true, Bool.and_eq_true, decide_eq_true_eq]
  tauto

theorem goIsSpace_goToLower (c : Char) : goIsSpace (goToLower c) = goIsSpace c := by
  have ht := goToLower_toNat c
  by_cases h : 65 ≤ c.toNat ∧ c.toNat ≤ 90
  · rw [if_pos h] at ht
    have h1 : goIsSpace (goToLower c) = false := by
      rw [← Bool.not_eq_true, goIsSpace_iff]
      omega
    have h2 : goIsSpace c = false := by
      rw [← Bool.not_eq_true, goIsSpace_iff]
      omega
    rw [h1, h2]
  · rw [if_neg h] at ht
    by_cases hs : goIsSpace c = true
    · rw [hs]
      rw [goIsSpace_iff] at hs ⊢
      omega
    · rw [Bool.not_eq_true] at hs
      rw [hs, ← Bool.not_eq_true, goIsSpace_iff]
      rw [← Bool.not_eq_true, goIsSpace_iff] at hs
      omega

theorem goToLower_eq_iff (c d : Char) (hd : d.toNat < 65) :
    goToLower c = d ↔ c = d := by
  have ht := goToLower_toNat c
  by_cases h : 65 ≤ c.toNat ∧ c.toNat ≤ 90
  · rw [if_pos h] at ht
    rw [char_eq_iff_toNat, char_eq_iff_toNat c d, ht]
    omega
  · rw [if_neg h] at ht
    rw [char_eq_iff_toNat, char_eq_iff_toNat c d, ht]

theorem goToLower_goToLower (c : Char) : goToLower (goToLower c) = goToLower c := by
  have ht := goToLower_toNat c
  have ht2 := goToLower_toNat (goToLower c)
  rw [char_eq_iff_toNat, ht2]
  by_cases h : 65 ≤ c.toNat ∧ c.toNat ≤ 90
  · rw [if_pos h] at ht
    rw [if_neg (by omega)]
  · rw [if_neg h] at ht
    rw [if_neg (by omega)]

theorem toLowerStr_toLowerStr (s : Str) : toLowerStr (toLowerStr s) = toLowerStr s := by
  unfold toLowerStr
  rw [List.map_map]
  apply List.map_congr_left
  intro c _
  exact goToLower_goToLower c

theorem mem_toLowerStr_of_flat (c : Char) (s : Str)
    (hc : c.toNat < 65) (h : c ∈ toLowerStr s) : c ∈ s := by
  unfold toLowerStr at h
  rw [List.mem_map] at h
  obtain ⟨d, hd, hlow⟩ := h
  rw [goToLower_eq_iff d c hc] at hlow
  exact hlow ▸ hd

theorem dropWhile_head_false (p : Char → Bool) :
    ∀ (l : Str) (c : Char), c ∈ (l.dropWhile p).head? → p c = false := by
  intro l
  induction l with
  | nil => intro c hc; simp at hc
  | cons x xs ih =>
    intro c hc
    rw [List.dropWhile_cons] at hc
    by_cases hx : p x = true
    · rw [if_pos hx] at hc
      exact ih c hc
    · rw [Bool.not_eq_true] at hx
      rw [if_neg (by rw [hx]; simp)] at hc
      simp only [List.head?_cons, Option.mem_def, Option.some.injEq] at hc
      rw [← hc]
      exact hx

theorem dropWhile_getLast (p : Char → Bool) :
    ∀ (l : Str), ¬ l.dropWhile p = [] → (l.dropWhile p).getLast? = l.getLast? := by
  intro l
  induction l with
  | nil => intro h; simp at h
  | cons x xs ih =>
    intro h
    rw [List.dropWhile_cons] at h ⊢
    by_cases hx : p x = true
    · rw [if_pos hx] at h ⊢
      cases xs with
      | nil => simp at h
      | cons y ys =>
        rw [ih h, List.getLast?_cons_cons]
    · rw [Bool.not_eq_true] at hx
      rw [if_neg (by rw [hx]; simp)]

theorem dropWhile_eq_self_of_head (p : Char → Bool) (l : Str)
    (h : ∀ c ∈ l.head?, p c = false) : l.dropWhile p = l := by
  cases l with
  | nil => rfl
  | cons x xs =>
    have hx := h x (by simp)
    rw [List.dropWhile_cons, if_neg (by rw [hx]; simp)]

theorem trimSpace_eq_self (s : Str)
    (h1 : ∀ c ∈ s.head?, goIsSpace c = false)
    (h2 : ∀ c ∈ s.getLast?, goIsSpace c = false) : trimSpace s = s := by
  unfold trimSpace
  rw [dropWhile_eq_self_of_head _ _ h1]
  rw [dropWhile_eq_self_of_head _ _ (by rw [List.head?_reverse]; exact h2)]
  exact List.reverse_reverse s

theorem trimSpace_head (s : Str) :
    ∀ c ∈ (trimSpace s).head?, goIsSpace c = false := by
  intro c hc
  unfold trimSpace at hc
  rw [List.head?_reverse] at hc
  by_cases hne : (s.dropWhile goIsSpace).reverse.dropWhile goIsSpace = []
  · rw [hne] at hc; simp at hc
  · rw [dropWhile_getLast _ _ hne, List.getLast?_reverse] at hc
    exact dropWhile_head_false _ _ _ hc

theorem trimSpace_getLast (s : Str) :
    ∀ c ∈ (trimSpace s).getLast?, goIsSpace c = false := by
  intro c hc
  unfold trimSpace at hc
  rw [List.getLast?_reverse] at hc
  exact dropWhile_head_false _ _ _ hc

theorem trimSpace_trimSpace (s : Str) : trimSpace (trimSpace s) = trimSpace s :=
  trimSpace_eq_self _ (trimSpace_head s) (trimSpace_getLast s)

theorem mem_of_mem_trimSpace {c : Char} {s : Str} (h : c ∈ trimSpace s) : c ∈ s := by
  unfold trimSpace at h
  rw [List.mem_reverse] at h
  have h2 := (List.dropWhile_sublist goIsSpace).subset h
  rw [List.mem_reverse] at h2
  exact (List.dropWhile_sublist goIsSpace).subset h2

theorem trimSpace_toLowerStr (s : Str) :
    trimSpace (toLowerStr s) = toLowerStr (trimSpace s) := by
  have hp : (goIsSpace ∘ goToLower) = goIsSpace := funext goIsSpace_goToLower
  unfold trimSpace toLowerStr
  rw [List.dropWhile_map, hp, ← List.map_reverse, List.dropWhile_map, hp,
    ← List.map_reverse]

theorem toLowerStr_ne_nil (s : Str) (h : ¬ s = []) : ¬ toLowerStr s = [] := by
  unfold toLowerStr
  simpa using h

theorem head?_append_ne {l l2 : Str} (h : ¬ l = []) : (l ++ l2).head? = l.head? := by
  rw [List.head?_append]
  cases hl : l.head? with
  | none => rw [List.head?_eq_none_iff] at hl; exact absurd hl h
  | some x => rfl

theorem getLast?_append_ne {l l2 : Str} (h : ¬ l2 = []) :
    (l ++ l2).getLast? = l2.getLast? := by
  rw [List.getLast?_append]
  cases hl : l2.getLast? with
  | none => rw [List.getLast?_eq_none_iff] at hl; exact absurd hl h
  | some x => rfl

theorem findIdx_colon_aux (r : Str) :
    ∀ (st : Str) (i : Nat), ¬ ':' ∈ st →
      List.findIdx? (fun c => c = ':') (st ++ ':' :: r) i = some (st.length + i) := by
  intro st
  induction st with
  | nil =>
    intro i _
    rw [List.nil_append, List.findIdx?_cons, if_pos (by simp)]
    simp
  | cons x xs ih =>
    intro i h
    rw [List.mem_cons, not_or] at h
    rw [List.cons_append, List.findIdx?_cons,
      if_neg (by simp only [decide_eq_true_eq]; exact fun he => h.1 he.symm),
      ih (i + 1) h.2]
    congr 1
    simp only [List.length_cons]
    omega

theorem findIdx_colon (st r : Str) (h : ¬ ':' ∈ st) :
    List.findIdx? (fun c => c = ':') (st ++ ':' :: r) 0 = some st.length := by
  rw [findIdx_colon_aux r st 0 h, Nat.add_zero]

theorem splitOnChar_no_sep (c : Char) :
    ∀ (l : Str), ¬ c ∈ l → splitOnChar c l = [l] := by
  intro l
  induction l with
  | nil => intro _; rfl
  | cons x xs ih =>
    intro h
    rw [List.mem_cons, not_or] at h
    rw [splitOnChar, if_neg (fun he => h.1 he.symm), ih h.2]

theorem splitOnChar_append (c : Char) (r : Str) :
    ∀ (g : Str), ¬ c ∈ g →
      splitOnChar c (g ++ c :: r) = g :: splitOnChar c r := by
  intro g
  induction g with
  | nil =>
    intro _
    rw [List.nil_append, splitOnChar, if_pos rfl]
  | cons x xs ih =>
    intro h
    rw [List.mem_cons, not_or] at h
    rw [List.cons_append, splitOnChar, if_neg (fun he => h.1 he.symm), ih h.2]

theorem getLast?_colon_cons (st r : Str) (hr : ¬ r = []) :
    (st ++ ':' :: r).getLast? = r.getLast? := by
  rw [getLast?_append_ne (by simp), ← List.singleton_append, getLast?_append_ne hr]

theorem ParseSelector_shape (st r : Str)
    (hst : ¬ st = []) (hr : ¬ r = [])
    (hstt : trimSpace st = st) (hrt : trimSpace r = r)
    (hlow : toLowerStr st = st)
    (hstc : ¬ ':' ∈ st) :
    ParseSelector (st ++ ':' :: r) =
      (match splitOnChar '#' r with
        | [g0] =>
          let g := trimSpace g0
          if g = [] then Except.error ()
          else Except.ok (st, g, defaultInstance)
        | [g0, i0] =>
          let g := trimSpace g0
          if g = [] then Except.error ()
          else
            let inst := trimSpace i0
            if inst = [] then Except.error ()
            else Except.ok (st, g, inst)
        | _ => Except.error ()) := by
  have hsth : ∀ c ∈ st.head?, goIsSpace c = false := by
    have h := trimSpace_head st
    rw [hstt] at h
    exact h
  have hrl : ∀ c ∈ r.getLast?, goIsSpace c = false := by
    have h := trimSpace_getLast r
    rw [hrt] at h
    exact h
  have hsel : trimSpace (st ++ ':' :: r) = st ++ ':' :: r := by
    apply trimSpace_eq_self
    · intro c hc
      rw [head?_append_ne hst] at hc
      exact hsth c hc
    · intro c hc
      rw [getLast?_colon_cons st r hr] at hc
      exact hrl c hc
  have hfind : List.findIdx? (fun c => c = ':') (st ++ ':' :: r) 0 = some st.length :=
    findIdx_colon st r hstc
  have hlen : (st ++ ':' :: r).length = st.length + 1 + r.length := by
    simp [List.length_append]
    omega
  have htake : (st ++ ':' :: r).take st.length = st := List.take_left st (':' :: r)
  have hdrop : (st ++ ':' :: r).drop (st.length + 1) = r := by
    have : (st ++ [':']).length = st.length + 1 := by simp
    rw [show st ++ ':' :: r = (st ++ [':']) ++ r by simp]
    exact List.drop_left' this
  have hstn : 0 < st.length := List.length_pos.mpr hst
  have hrn : 0 < r.length := List.length_pos.mpr hr
  rw [ParseSelector]
  simp only []
  rw [hsel]
  rw [if_neg (show ¬ st ++ ':' :: r = [] by simp)]
  rw [hfind]
  simp only []
  rw [if_neg (by
    simp only [Bool.or_eq_true, decide_eq_true_eq]
    rw [hlen]
    omega)]
  rw [htake, hstt, hlow, hdrop, hrt]
  rw [if_neg (by
    simp only [Bool.or_eq_true, decide_eq_true_eq]
    rw [not_or]
    exact ⟨hst, hr⟩)]

theorem ParseSelector_full (st g1 i1 : Str)
    (hst : ¬ st = []) (hg : ¬ g1 = []) (hi : ¬ i1 = [])
    (hstt : trimSpace st = st) (hgt : trimSpace g1 = g1) (hit : trimSpace i1 = i1)
    (hlow : toLowerStr st = st)
    (hstc : ¬ ':' ∈ st) (hgh : ¬ '#' ∈ g1) (hih : ¬ '#' ∈ i1) :
    ParseSelector (st ++ [':'] ++ g1 ++ ['#'] ++ i1) = Except.ok (st, g1, i1) := by
  have hgl : ∀ c ∈ g1.getLast?, goIsSpace c = false := by
    have h := trimSpace_getLast g1
    rw [hgt] at h
    exact h
  have hrt : trimSpace (g1 ++ '#' :: i1) = g1 ++ '#' :: i1 := by
    apply trimSpace_eq_self
    · intro c hc
      rw [head?_append_ne hg] at hc
      have h := trimSpace_head g1
      rw [hgt] at h
      exact h c hc
    · intro c hc
      rw [getLast?_append_ne (by simp), ← List.singleton_append,
        getLast?_append_ne hi] at hc
      have h := trimSpace_getLast i1
      rw [hit] at h
      exact h c hc
  rw [show st ++ [':'] ++ g1 ++ ['#'] ++ i1 = st ++ ':' :: (g1 ++ '#' :: i1) by simp]
  rw [ParseSelector_shape st (g1 ++ '#' :: i1) hst (by simp) hstt hrt hlow hstc]
  rw [splitOnChar_append '#' i1 g1 hgh, splitOnChar_no_sep '#' i1 hih]
  simp only []
  rw [hgt, if_neg hg, hit, if_neg hi]

theorem ParseSelector_short (st g1 : Str)
    (hst : ¬ st = []) (hg : ¬ g1 = [])
    (hstt : trimSpace st = st) (hgt : trimSpace g1 = g1)
    (hlow : toLowerStr st = st)
    (hstc : ¬ ':' ∈ st) (hgh : ¬ '#' ∈ g1) :
    ParseSelector (st ++ [':'] ++ g1) = Except.ok (st, g1, defaultInstance) := by
  rw [show st ++ [':'] ++ g1 = st ++ ':' :: g1 by simp]
  rw [ParseSelector_shape st g1 hst hg hstt hgt hlow hstc]
  rw [splitOnChar_no_sep '#' g1 hgh]
  simp only []
  rw [hgt, if_neg hg]


/-- C10 counterexample: the literal round-trip fails.  The inputs
`storeID = "steam"`, `storeGameID = " 109 "`, `instanceID = "default"`
are non-empty after trimming and contain no `':'` or `'#'`, yet
`ParseSelector (FullSelector ...)` returns the trimmed `"109"` for the
store-game id, not the original `" 109 "` unchanged. -/
theorem C10_selector_roundtrip_counterexample :
    (¬ trimSpace [' ', '1', '0', '9', ' '] = []) ∧
    (¬ ':' ∈ ([' ', '1', '0', '9', ' '] : Str)) ∧
    (¬ '#' ∈ ([' ', '1', '0', '9', ' '] : Str)) ∧
    ParseSelector
        (FullSelector ['s', 't', 'e', 'a', 'm'] [' ', '1', '0', '9', ' ']
          ['d', 'e', 'f', 'a', 'u', 'l', 't']) =
      Except.ok (['s', 't', 'e', 'a', 'm'], ['1', '0', '9'], defaultInstance) ∧
    ¬ (['1', '0', '9'] : Str) = [' ', '1', '0', '9', ' '] :=
  ⟨by decide, by decide, by decide, by rfl, by decide⟩

/-- C10 (amended): for storeID, storeGameID, instanceID that are
non-empty after trimming (instanceID may also trim to empty, in which
case the instance defaults) and contain no `':'` or `'#'` characters,
`ParseSelector (FullSelector ...)` and `ParseSelector (ShortSelector ...)`
both succeed and return the lowercased *trimmed* storeID, the *trimmed*
storeGameID, and the *trimmed* instanceID (the literal inputs only if
they carry no surrounding whitespace), the instance defaulting to
`"default"` when it trims to empty. -/
theorem C10_selector_roundtrip_amended (a g i : Str)
    (ha : ¬ trimSpace a = []) (hg : ¬ trimSpace g = [])
    (hac : ¬ ':' ∈ a) (hah : ¬ '#' ∈ a)
    (hgc : ¬ ':' ∈ g) (hgh : ¬ '#' ∈ g)
    (hic : ¬ ':' ∈ i) (hih : ¬ '#' ∈ i) :
    ParseSelector (FullSelector a g i) =
      Except.ok (toLowerStr (trimSpace a), trimSpace g,
        if trimSpace i = [] then defaultInstance else trimSpace i) ∧
    ParseSelector (ShortSelector a g i) =
      Except.ok (toLowerStr (trimSpace a), trimSpace g,
        if trimSpace i = [] then defaultInstance else trimSpace i) := by
  have hst : ¬ toLowerStr (trimSpace a) = [] := toLowerStr_ne_nil _ ha
  have hstt : trimSpace (toLowerStr (trimSpace a)) = toLowerStr (trimSpace a) := by
    rw [trimSpace_toLowerStr, trimSpace_trimSpace]
  have hlow : toLowerStr (toLowerStr (trimSpace a)) = toLowerStr (trimSpace a) :=
    toLowerStr_toLowerStr _
  have hstc : ¬ ':' ∈ toLowerStr (trimSpace a) := fun hm =>
    hac (mem_of_mem_trimSpace (mem_toLowerStr_of_flat ':' _ (by decide) hm))
  have hgt : trimSpace (trimSpace g) = trimSpace g := trimSpace_trimSpace g
  have hg1h : ¬ '#' ∈ trimSpace g := fun hm => hgh (mem_of_mem_trimSpace hm)
  constructor
  · rw [FullSelector]
    by_cases hie : trimSpace i = []
    · rw [if_pos hie]
      exact ParseSelector_full _ _ _ hst hg (by decide) hstt hgt (by decide)
        hlow hstc hg1h (by decide)
    · rw [if_neg hie]
      exact ParseSelector_full _ _ _ hst hg hie hstt hgt (trimSpace_trimSpace i)
        hlow hstc hg1h (fun hm => hih (mem_of_mem_trimSpace hm))
  · rw [ShortSelector]
    by_cases hie : trimSpace i = []
    · rw [if_pos (by rw [hie]; simp), if_pos hie]
      exact ParseSelector_short _ _ hst hg hstt hgt hlow hstc hg1h
    · by_cases hid : trimSpace i = defaultInstance
      · rw [if_pos (by rw [hid]; simp), if_neg hie, hid]
        exact ParseSelector_short _ _ hst hg hstt hgt hlow hstc hg1h
      · rw [if_neg (by
            simp only [Bool.or_eq_true, decide_eq_true_eq]
            rw [not_or]
            exact ⟨hie, hid⟩), if_neg hie]
        exact ParseSelector_full _ _ _ hst hg hie hstt hgt (trimSpace_trimSpace i)
          hlow hstc hg1h (fun hm => hih (mem_of_mem_trimSpace hm))

theorem C10_selector_roundtrip_amended_witness :
    ParseSelector
        (FullSelector ['S', 't', 'e', 'a', 'm'] [' ', '1', '0', '9', ' '] [' ', 'x']) =
      Except.ok (toLowerStr (trimSpace ['S', 't', 'e', 'a', 'm']),
        trimSpace [' ', '1', '0', '9', ' '],
        if trimSpace [' ', 'x'] = ([] : Str) then defaultInstance
        else trimSpace [' ', 'x']) ∧
    ParseSelector
        (ShortSelector ['S', 't', 'e', 'a', 'm'] [' ', '1', '0', '9', ' '] [' ', 'x']) =
      Except.ok (toLowerStr (trimSpace ['S', 't', 'e', 'a', 'm']),
        trimSpace [' ', '1', '0', '9', ' '],
        if trimSpace [' ', 'x'] = ([] : Str) then defaultInstance
        else trimSpace [' ', 'x']) :=
  C10_selector_roundtrip_amended ['S', 't', 'e', 'a', 'm'] [' ', '1', '0', '9', ' ']
    [' ', 'x'] (by decide) (by decide) (by decide) (by decide) (by decide)
    (by decide) (by decide) (by decide)

/-! ## C5: the importer validates before any metadata mutation -/

theorem copyWithContext_not_cancelled (done : Nat → Bool) (n : Nat) :
    ∀ src : Bytes, src.length ≤ n → ∀ i total : Nat,
      (copyWithContext done i total src).2 = false →
      copyWithContext done i total src = (total + src.length, false) := by
  induction n with
  | zero =>
    intro src h i total hnc
    have hnil : src = [] := List.eq_nil_of_length_eq_zero (Nat.le_zero.mp h)
    subst hnil
    rw [copyWithContext_nil] at hnc ⊢
    by_cases hd : done i = true
    · rw [if_pos hd] at hnc; simp at hnc
    · rw [if_neg hd]; simp
  | succ n ih =>
    intro src h i total hnc
    cases src with
    | nil =>
      rw [copyWithContext_nil] at hnc ⊢
      by_cases hd : done i = true
      · rw [if_pos hd] at hnc; simp at hnc
      · rw [if_neg hd]; simp
    | cons x xs =>
      rw [copyWithContext_cons] at hnc ⊢
      by_cases hd : done i = true
      · rw [if_pos hd] at hnc; simp at hnc
      · rw [if_neg hd] at hnc ⊢
        rw [ih ((x :: xs).drop bufLen) (by
              simp only [List.length_drop, List.length_cons]
              simp only [List.length_cons] at h
              have hb : 0 < bufLen := by decide
              omega) (i + 1) (total + ((x :: xs).take bufLen).length) hnc]
        rw [Prod.mk.injEq]
        constructor
        · simp only [List.length_take, List.length_drop, List.length_cons]
          omega
        · rfl

theorem IngestFile_ok_sha (s : Store) (H : Bytes → String) (done : Nat → Bool)
    (tmpName : String) (fs : FS) (kind : Kind) (src : Bytes)
    (res : IngestResult) (fs2 : FS)
    (h : s.IngestFile H done tmpName fs kind src = (Except.ok res, fs2)) :
    res.SHA256Hex = H src ∧ res.SizeBytes = src.length := by
  unfold Store.IngestFile at h
  rcases hcp : copyWithContext done 0 0 src with ⟨n, cancelled⟩
  rw [hcp] at h
  simp only [] at h
  cases cancelled with
  | true =>
    rw [if_pos rfl] at h
    simp at h
  | false =>
    have hn : n = src.length := by
      have hq := copyWithContext_not_cancelled done src.length src (le_refl _) 0 0
        (by rw [hcp])
      rw [hcp, Prod.mk.injEq] at hq
      simpa using hq.1
    rw [if_neg (by simp)] at h
    cases hpf : s.PathFor kind (H src) with
    | none =>
      rw [hpf] at h
      simp only [] at h
      simp at h
    | some finalPath =>
      rw [hpf] at h
      simp only [] at h
      cases hlk : FS.lookup (FS.set fs tmpName (src.take n)) finalPath with
      | some existing =>
        rw [hlk] at h
        simp only [] at h
        by_cases hlen : existing.length = n
        · rw [if_pos hlen, Prod.mk.injEq, Except.ok.injEq] at h
          rw [← h.1]
          exact ⟨rfl, hn⟩
        · rw [if_neg hlen] at h
          simp at h
      | none =>
        rw [hlk] at h
        simp only [] at h
        rw [Prod.mk.injEq, Except.ok.injEq] at h
        rw [← h.1]
        exact ⟨rfl, hn⟩

theorem ImportArchive_ok_sha (H : Bytes → String) (done : Nat → Bool) (s : Store)
    (tmpName : String) (db : Db) (fs : FS) (opts : ImportOptions) (now : Nat)
    (c : Bytes) (hc : FS.lookup fs opts.archivePath = some c)
    (db2 : Db) (out : ImportOut) (fs2 : FS)
    (h : ImportArchive H done s tmpName db fs opts now = (Except.ok (db2, out), fs2)) :
    out.sha = H c ∧ out.size = c.length := by
  unfold ImportArchive at h
  rw [hc] at h
  simp only [] at h
  rcases hing : s.IngestFile H done tmpName fs Kind.archive c with ⟨r, fs3⟩
  rw [hing] at h
  cases r with
  | error e => simp at h
  | ok res =>
    simp only [] at h
    obtain ⟨hsha, hsize⟩ :=
      IngestFile_ok_sha s H done tmpName fs Kind.archive c res fs3 hing
    split at h
    · simp at h
    · split at h
      · simp at h
      · split at h
        · simp at h
        · rw [Prod.mk.injEq, Except.ok.injEq, Prod.mk.injEq] at h
          rw [← h.1.2]
          exact ⟨hsha, hsize⟩

/-- C5: the importer never mutates metadata for an input it cannot
list as an archive.  With the input file readable with content `c`:
when the lister accepts `c`, preparation hands the input itself to the
ingest; when it rejects `c`, the input is wrapped into the tmp-root
wrap file and the wrapped bytes are re-validated and handed over; when
even the wrapped bytes cannot be listed, the whole import returns the
bad-archive error and the caller keeps its database and filesystem;
and every successful import carries the digest and size of exactly the
variant that was validated (the input itself, or else its wrap). -/
theorem C5_import_validates_before_metadata
    (listOK : Bytes → Bool) (wrapBytes : Bytes → Bytes) (wrapTmp : String)
    (H : Bytes → String) (done : Nat → Bool) (s : Store) (ingestTmp : String)
    (db : Db) (fs : FS) (gid : Nat) (input : String) (now : Nat)
    (c : Bytes) (hc : FS.lookup fs input = some c) :
    (listOK c = true →
      prepareImportArchive listOK wrapBytes wrapTmp fs input =
        Except.ok (⟨input, false, "", ""⟩, fs)) ∧
    (¬ listOK c = true → listOK (wrapBytes c) = true →
      prepareImportArchive listOK wrapBytes wrapTmp fs input =
        Except.ok (⟨wrapTmp, true, "", ""⟩, FS.set fs wrapTmp (wrapBytes c))) ∧
    (¬ listOK c = true → ¬ listOK (wrapBytes c) = true →
      modsImportFlow listOK wrapBytes wrapTmp H done s ingestTmp db fs gid input
          now =
        (Except.error ImportErr.badArchive, fs)) ∧
    (∀ db2 out fs2,
      modsImportFlow listOK wrapBytes wrapTmp H done s ingestTmp db fs gid input
          now =
        (Except.ok (db2, out), fs2) →
      out.sha = (if listOK c = true then H c else H (wrapBytes c)) ∧
      out.size = (if listOK c = true then c.length else (wrapBytes c).length)) := by
  have hbs : bsdtarListOK listOK fs input = listOK c := by
    unfold bsdtarListOK
    rw [hc]
  have hbs2 : bsdtarListOK listOK (FS.set fs wrapTmp (wrapBytes c)) wrapTmp =
      listOK (wrapBytes c) := by
    unfold bsdtarListOK
    rw [FS.lookup_set_self]
  have hprep1 : listOK c = true →
      prepareImportArchive listOK wrapBytes wrapTmp fs input =
        Except.ok (⟨input, false, "", ""⟩, fs) := by
    intro hl
    unfold prepareImportArchive
    rw [hbs, if_pos hl]
  have hprep2 : ¬ listOK c = true → listOK (wrapBytes c) = true →
      prepareImportArchive listOK wrapBytes wrapTmp fs input =
        Except.ok (⟨wrapTmp, true, "", ""⟩, FS.set fs wrapTmp (wrapBytes c)) := by
    intro hl hl2
    unfold prepareImportArchive
    rw [hbs, if_neg hl, hc]
    simp only []
    rw [hbs2, if_pos hl2]
  have hprep3 : ¬ listOK c = true → ¬ listOK (wrapBytes c) = true →
      prepareImportArchive listOK wrapBytes wrapTmp fs input =
        Except.error ImportErr.badArchive := by
    intro hl hl2
    unfold prepareImportArchive
    rw [hbs, if_neg hl, hc]
    simp only []
    rw [hbs2, if_neg hl2]
  refine ⟨hprep1, hprep2, ?_, ?_⟩
  · intro hl hl2
    unfold modsImportFlow
    rw [hprep3 hl hl2]
  · intro db2 out fs2 h
    unfold modsImportFlow at h
    by_cases hl : listOK c = true
    · rw [hprep1 hl] at h
      simp only [] at h
      rcases hia : ImportArchive H done s ingestTmp db fs
          ⟨gid, input, none, none, none, none, none, none, false, goBase input⟩
          now with ⟨r, fs3⟩
      rw [hia] at h
      simp only [] at h
      rw [Prod.mk.injEq] at h
      rw [h.1] at hia
      rw [if_pos hl, if_pos hl]
      exact ImportArchive_ok_sha H done s ingestTmp db fs _ now c hc db2 out fs3 hia
    · by_cases hl2 : listOK (wrapBytes c) = true
      · rw [hprep2 hl hl2] at h
        simp only [] at h
        rcases hia : ImportArchive H done s ingestTmp db
            (FS.set fs wrapTmp (wrapBytes c))
            ⟨gid, wrapTmp, none, none, none, none, none, none, true, goBase input⟩
            now with ⟨r, fs3⟩
        rw [hia] at h
        simp only [] at h
        rw [Prod.mk.injEq] at h
        rw [h.1] at hia
        rw [if_neg hl, if_neg hl]
        exact ImportArchive_ok_sha H done s ingestTmp db
          (FS.set fs wrapTmp (wrapBytes c)) _ now (wrapBytes c)
          (FS.lookup_set_self fs wrapTmp (wrapBytes c)) db2 out fs3 hia
      · rw [hprep3 hl hl2] at h
        simp at h

theorem C5_import_validates_before_metadata_witness :
    modsImportFlow c5ListOK c5Wrap "wrap.tmp" c5H (fun _ => false) sampleStore
        "tmp.in" emptyDb c5Fs 1 "a.zip" 0 =
      (Except.error ImportErr.badArchive, c5Fs) :=
  (C5_import_validates_before_metadata c5ListOK c5Wrap "wrap.tmp" c5H
      (fun _ => false) sampleStore "tmp.in" emptyDb c5Fs 1 "a.zip" 0 [2, 3]
      (by rfl)).2.2.1 (by decide) (by decide)

end Modctl
